import Mathlib

set_option maxRecDepth 4000

/-
Verification development for the MFCAuto chat-client core (src/src/main/Client.ts).

The TypeScript source is shallowly embedded below:
* JS `Buffer`s become `List Nat` (one entry per byte, each in 0..255 by construction),
  and JS strings become `List Char` (or Lean `String` where convenient).
* Signed 32-bit reads/writes (`Buffer.readInt32BE` / `writeInt32BE`) are explicit
  two's-complement arithmetic on `Int` with `% 2^32`.
* Stateful code (`_disconnected`, reconnect backoff, the `completedModels` /
  `completedTags` flags) becomes explicit step functions over small state records,
  iterated with `foldl` over event lists.
* Fallible JS code (`JSON.parse`, `decodeURIComponent`, `parseInt`) returns `Option`.
* Recursive buffer scanners (`_readPacket`, `_readWebSocketPacket`) are written with an
  explicit fuel argument (one unit of fuel per loop iteration; every iteration consumes
  at least one element, so `length` fuel is always enough — adequacy lemmas below).

`Constants.ts`, `Model.ts` and `Packet.ts` are not part of the available sources; the
few facts needed from them (band constants, `Model.getModel` semantics, FCTYPE /
FCCHAN / FCLEVEL codes) are modelled from the specification and clearly marked.
-/

/-- `constants.MAGIC`: the fixed framing sentinel of the binary dialect.
The value is given both by the spec (§4.A) and used throughout `Client.ts`. -/
def MAGIC : Int := -2027771214

/-- Interpret a 32-bit unsigned value as a signed (two's complement) int32,
as `Buffer.readInt32BE` does. -/
def toSigned32 (n : Nat) : Int :=
  if n < 2147483648 then (n : Int) else (n : Int) - 4294967296

/-- `Buffer.writeInt32BE v`: the four big-endian bytes of `v`'s two's complement. -/
def writeInt32BE (v : Int) : List Nat :=
  let n : Nat := (v % 4294967296).toNat
  [n / 16777216 % 256, n / 65536 % 256, n / 256 % 256, n % 256]

/-- `Buffer.readInt32BE(pos)`: big-endian signed 32-bit read at byte offset `pos`;
`none` models the `RangeError` thrown when fewer than 4 bytes remain. -/
def readInt32BE (buf : List Nat) (pos : Nat) : Option Int :=
  match buf.drop pos with
  | b0 :: b1 :: b2 :: b3 :: _ => some (toSigned32 (((b0 * 256 + b1) * 256 + b2) * 256 + b3))
  | _ => none

/-! ### Room/user id normalization (`Client.toUserId` / `Client.toRoomId`) -/

/-- Modelled from the spec: `Constants.ts` is not among the available sources, so the
room/user id band bases (`CHANNEL.ID_START`, `SESSCHAN.ID_START`, `CAMCHAN.ID_START`)
are kept as a parameter record. The spec (§6) fixes the two literal bands 1,000,000,000
and 300,000,000 and the descending order of the checks; theorems below take the implied
ordering as hypotheses. -/
structure IdBands where
  channelIdStart : Int
  sesschanIdStart : Int
  camchanIdStart : Int
deriving DecidableEq

/-- Modelled from the spec: concrete band bases consistent with the spec's ordering
(`CHANNEL.ID_START < SESSCHAN.ID_START ≤ 300000000 ≤ CAMCHAN.ID_START ≤ 1000000000`);
these are the publicly documented MyFreeCams values. -/
def specBands : IdBands := ⟨100000000, 200000000, 400000000⟩

/-- `Client.toUserId` (Client.ts:985): strip the room-id band base, if any. -/
def toUserId (B : IdBands) (id : Int) : Int :=
  if id ≥ 1000000000 then id - 1000000000
  else if id ≥ B.camchanIdStart then id - B.camchanIdStart
  else if id ≥ 300000000 then id - 300000000
  else if id ≥ B.sesschanIdStart then id - B.sesschanIdStart
  else if id ≥ B.channelIdStart then id - B.channelIdStart
  else id

/-- `Client.toRoomId` (Client.ts:1011): add the public-room base when below it. -/
def toRoomId (B : IdBands) (id : Int) (camYou : Bool) : Int :=
  let publicRoomId := if camYou then B.camchanIdStart else B.channelIdStart
  if id < publicRoomId then id + publicRoomId else id

/-! ### Connection state machine and reconnect backoff -/

/-- `ClientState` (Client.ts:16). -/
inductive CState where
  | IDLE
  | PENDING
  | ACTIVE
deriving DecidableEq

/-- `Client._initialReconnectSeconds` (Client.ts:73). -/
def initialReconnectSeconds : ℚ := 5

/-- `Client._reconnectBackOffMultiplier` (Client.ts:74). JS multiplies IEEE doubles;
every value reachable here (5·1.5^k with k ≤ 16, after which the guard stops the
multiplication) is exactly representable as a double, so exact rationals are faithful. -/
def reconnectBackOffMultiplier : ℚ := 3 / 2

/-- `Client._maximumReconnectSeconds` (Client.ts:75). -/
def maximumReconnectSeconds : ℚ := 2400

/-- State touched by the reconnect logic: the client state and the shared
`Client._currentReconnectSeconds`. -/
structure ReconnectState where
  st : CState
  secs : ℚ
deriving DecidableEq

/-- Events driving the reconnect state machine: a successful connection ('connect'
resp. websocket 'open' callback, Client.ts:1310/1350) or a `_disconnected(reason)`
call with the current `_manualDisconnect` flag (Client.ts:1549). -/
inductive ConnEvent where
  | connected
  | disconnected (manual : Bool)
deriving DecidableEq

/-- One transition of the reconnect state machine, read off Client.ts:
on connection success the state becomes ACTIVE and `_currentReconnectSeconds` is reset
to the initial value (Client.ts:1310-1313); `_disconnected` is a no-op while IDLE
(Client.ts:1550), sets IDLE on a manual disconnect (Client.ts:1598), and otherwise sets
PENDING and multiplies the backoff by 1.5 — but only while it is still below
`_maximumReconnectSeconds` (Client.ts:1594-1596). -/
def connStep (s : ReconnectState) : ConnEvent → ReconnectState
  | .connected => ⟨.ACTIVE, initialReconnectSeconds⟩
  | .disconnected m =>
    if s.st = .IDLE then s
    else if m then ⟨.IDLE, s.secs⟩
    else ⟨.PENDING,
      if s.secs < maximumReconnectSeconds then s.secs * reconnectBackOffMultiplier else s.secs⟩

/-- Run the reconnect machine from the freshly constructed client
(state IDLE, backoff at the initial 5 seconds). -/
def connRun (evs : List ConnEvent) : ReconnectState :=
  evs.foldl connStep ⟨.IDLE, initialReconnectSeconds⟩

/-! ### Logged-in-client refcount and registry reset (`_disconnected` / `login`) -/

/-- Effect of one `_disconnected` call on the process-wide logged-in-client refcount
`Client._connectedClientCount` and the model registry, read off Client.ts:1549-1608:
the body only runs when the state is not IDLE; the count is decremented when this
client chose to log in and the count is positive (Client.ts:1562-1565); the state
becomes PENDING (armed reconnect) unless the disconnect was manual (Client.ts:1572-1601);
and `Model.reset()` runs exactly when the count is zero afterwards (Client.ts:1604-1606).
Result: (new count, new client state, whether the registry was reset). -/
def disconnectedEffect (choseToLogIn manual : Bool) (count : Nat) (st : CState) :
    Nat × CState × Bool :=
  if st = .IDLE then (count, st, false)
  else
    let c := if choseToLogIn ∧ count > 0 then count - 1 else count
    (c, if manual then .IDLE else .PENDING, c = 0)

/-- `Client.login` increments the logged-in-client refcount (Client.ts:1618). -/
def loginEffect (count : Nat) : Nat := count + 1

/-! ### `completedModels` / `completedTags` and CLIENT_MODELSLOADED -/

/-- The two per-connection completion flags (Client.ts:55-56). -/
structure MLState where
  completedModels : Bool
  completedTags : Bool
deriving DecidableEq

/-- Events relevant to CLIENT_MODELSLOADED: a MANAGELIST `FCL.CAMS` list whose rdata is
an array finishing (Client.ts:410-417), a MANAGELIST `FCL.TAGS` list finishing
(Client.ts:454-461), and a disconnect (Client.ts:1552-1553). -/
inductive MLEvent where
  | camsList
  | tagsList
  | disconnect
deriving DecidableEq

/-- One step of the completion-flag logic; the returned Bool is whether
CLIENT_MODELSLOADED is emitted by this step, exactly as in Client.ts:410-417 and
454-461; `_disconnected` resets both flags (Client.ts:1552-1553). -/
def mlStep (s : MLState) : MLEvent → MLState × Bool
  | .camsList =>
    if s.completedModels then (s, false)
    else ({ s with completedModels := true }, s.completedTags)
  | .tagsList =>
    if s.completedTags then (s, false)
    else ({ s with completedTags := true }, s.completedModels)
  | .disconnect => (⟨false, false⟩, false)

/-- One accumulating step for counting CLIENT_MODELSLOADED emissions. -/
def mlFold (p : MLState × Nat) (e : MLEvent) : MLState × Nat :=
  ((mlStep p.1 e).1, p.2 + (if (mlStep p.1 e).2 then 1 else 0))

/-- Run the completion-flag logic from the start of a connection (both flags false,
Client.ts:55-56), counting CLIENT_MODELSLOADED emissions. -/
def mlRun (evs : List MLEvent) : MLState × Nat :=
  evs.foldl mlFold (⟨false, false⟩, 0)

/-! ### Character classes and small scanners shared by the JS string functions -/

/-- The character class of the JS regex `\s` (ECMAScript WhiteSpace ∪ LineTerminator). -/
def jsWhitespace (c : Char) : Bool :=
  c = ' ' || c = Char.ofNat 9 || c = Char.ofNat 10 || c = Char.ofNat 11 ||
  c = Char.ofNat 12 || c = Char.ofNat 13 || c = Char.ofNat 160 || c = Char.ofNat 0x1680 ||
  (Char.ofNat 0x2000 ≤ c && c ≤ Char.ofNat 0x200A) || c = Char.ofNat 0x2028 ||
  c = Char.ofNat 0x2029 || c = Char.ofNat 0x202F || c = Char.ofNat 0x205F ||
  c = Char.ofNat 0x3000 || c = Char.ofNat 0xFEFF

/-- The character class of the JS regex `\d`. -/
def isDigitChar (c : Char) : Bool := '0' ≤ c && c ≤ '9'

/-- Decimal value of a digit run (most significant first). -/
def digitsToNat (ds : List Char) : Nat :=
  ds.foldl (fun a c => a * 10 + (c.toNat - 48)) 0

/-- Value of one hexadecimal digit. -/
def hexDigitVal (c : Char) : Option Nat :=
  if '0' ≤ c ∧ c ≤ '9' then some (c.toNat - 48)
  else if 'a' ≤ c ∧ c ≤ 'f' then some (c.toNat - 87)
  else if 'A' ≤ c ∧ c ≤ 'F' then some (c.toNat - 70)
  else none

/-- JS `parseInt(s, 10)`: skip leading whitespace, optional sign, maximal digit run;
`none` models `NaN`. -/
def parseIntJS (s : List Char) : Option Int :=
  let s1 := s.dropWhile jsWhitespace
  let p : Bool × List Char :=
    match s1 with
    | c :: r => if c = '-' then (true, r) else if c = '+' then (false, r) else (false, s1)
    | [] => (false, s1)
  let ds := (p.2.span isDigitChar).1
  if ds.isEmpty then none
  else some ((if p.1 then -1 else 1) * (digitsToNat ds : Int))

/-! ### UTF-8 encoding and decoding

`Buffer.toString("utf8")` decodes bytes leniently (invalid sequences become U+FFFD),
while `decodeURIComponent` rejects invalid sequences with a `URIError`; both variants
are embedded. -/

/-- UTF-8 bytes of one code point. -/
def utf8Bytes (c : Char) : List Nat :=
  let n := c.toNat
  if n < 128 then [n]
  else if n < 2048 then [192 + n / 64, 128 + n % 64]
  else if n < 65536 then [224 + n / 4096, 128 + n / 64 % 64, 128 + n % 64]
  else [240 + n / 262144, 128 + n / 4096 % 64, 128 + n / 64 % 64, 128 + n % 64]

/-- UTF-8 encoding of a character list. -/
def utf8OfList : List Char → List Nat
  | [] => []
  | c :: cs => utf8Bytes c ++ utf8OfList cs

/-- Is `b` a UTF-8 continuation byte? -/
def isContByte (b : Nat) : Bool := 128 ≤ b && b ≤ 191

/-- U+FFFD, the Unicode replacement character. -/
def replacementChar : Char := Char.ofNat 0xFFFD

/-- Strict UTF-8 decoding (overlong forms, surrogates and truncated sequences are
rejected), as `decodeURIComponent` requires of percent-escaped bytes. -/
def utf8DecodeStrict : List Nat → Option (List Char)
  | [] => some []
  | b0 :: rest =>
    if b0 < 128 then (utf8DecodeStrict rest).map (Char.ofNat b0 :: ·)
    else if 194 ≤ b0 ∧ b0 ≤ 223 then
      match rest with
      | b1 :: rest1 =>
        if isContByte b1 then
          (utf8DecodeStrict rest1).map (Char.ofNat ((b0 - 192) * 64 + (b1 - 128)) :: ·)
        else none
      | [] => none
    else if 224 ≤ b0 ∧ b0 ≤ 239 then
      match rest with
      | b1 :: b2 :: rest2 =>
        if isContByte b1 ∧ isContByte b2 ∧ (b0 ≠ 224 ∨ 160 ≤ b1) ∧ (b0 ≠ 237 ∨ b1 ≤ 159) then
          (utf8DecodeStrict rest2).map
            (Char.ofNat ((b0 - 224) * 4096 + (b1 - 128) * 64 + (b2 - 128)) :: ·)
        else none
      | _ => none
    else if 240 ≤ b0 ∧ b0 ≤ 244 then
      match rest with
      | b1 :: b2 :: b3 :: rest3 =>
        if isContByte b1 ∧ isContByte b2 ∧ isContByte b3 ∧
            (b0 ≠ 240 ∨ 144 ≤ b1) ∧ (b0 ≠ 244 ∨ b1 ≤ 143) then
          (utf8DecodeStrict rest3).map
            (Char.ofNat ((b0 - 240) * 262144 + (b1 - 128) * 4096 + (b2 - 128) * 64 + (b3 - 128)) :: ·)
        else none
      | _ => none
    else none

/-- Lenient UTF-8 decoding as performed by `Buffer.toString("utf8")`: an invalid or
truncated sequence contributes U+FFFD and decoding resumes after the offending lead
byte. Fueled (each step consumes at least one byte, so `length` fuel suffices). -/
def utf8DecodeLossyAux : Nat → List Nat → List Char
  | 0, _ => []
  | _ + 1, [] => []
  | fuel + 1, b0 :: rest =>
    if b0 < 128 then Char.ofNat b0 :: utf8DecodeLossyAux fuel rest
    else if 194 ≤ b0 ∧ b0 ≤ 223 then
      match rest with
      | b1 :: rest1 =>
        if isContByte b1 then
          Char.ofNat ((b0 - 192) * 64 + (b1 - 128)) :: utf8DecodeLossyAux fuel rest1
        else replacementChar :: utf8DecodeLossyAux fuel rest
      | [] => [replacementChar]
    else if 224 ≤ b0 ∧ b0 ≤ 239 then
      match rest with
      | b1 :: b2 :: rest2 =>
        if isContByte b1 ∧ isContByte b2 ∧ (b0 ≠ 224 ∨ 160 ≤ b1) ∧ (b0 ≠ 237 ∨ b1 ≤ 159) then
          Char.ofNat ((b0 - 224) * 4096 + (b1 - 128) * 64 + (b2 - 128)) ::
            utf8DecodeLossyAux fuel rest2
        else replacementChar :: utf8DecodeLossyAux fuel rest
      | _ => replacementChar :: utf8DecodeLossyAux fuel rest
    else if 240 ≤ b0 ∧ b0 ≤ 244 then
      match rest with
      | b1 :: b2 :: b3 :: rest3 =>
        if isContByte b1 ∧ isContByte b2 ∧ isContByte b3 ∧
            (b0 ≠ 240 ∨ 144 ≤ b1) ∧ (b0 ≠ 244 ∨ b1 ≤ 143) then
          Char.ofNat ((b0 - 240) * 262144 + (b1 - 128) * 4096 + (b2 - 128) * 64 + (b3 - 128)) ::
            utf8DecodeLossyAux fuel rest3
        else replacementChar :: utf8DecodeLossyAux fuel rest
      | _ => replacementChar :: utf8DecodeLossyAux fuel rest
    else replacementChar :: utf8DecodeLossyAux fuel rest

/-- `Buffer.toString("utf8")` on a byte list. -/
def utf8DecodeLossy (bs : List Nat) : List Char := utf8DecodeLossyAux (bs.length + 1) bs

/-! ### JSON values and `JSON.parse` -/

/-- JSON value universe (numbers as exact rationals; every JSON numeral denotes
a rational). -/
inductive Json where
  | null : Json
  | bool (b : Bool) : Json
  | num (q : ℚ) : Json
  | str (s : List Char) : Json
  | arr (elems : List Json) : Json
  | obj (members : List (List Char × Json)) : Json

/-- JSON insignificant whitespace. -/
def jsonWsChar (c : Char) : Bool :=
  c = ' ' || c = Char.ofNat 9 || c = Char.ofNat 10 || c = Char.ofNat 13

/-- Skip JSON whitespace. -/
def skipJsonWs (s : List Char) : List Char := s.dropWhile jsonWsChar

/-- Four hex digits to a value. -/
def hex4 (h1 h2 h3 h4 : Char) : Option Nat := do
  let v1 ← hexDigitVal h1
  let v2 ← hexDigitVal h2
  let v3 ← hexDigitVal h3
  let v4 ← hexDigitVal h4
  some (((v1 * 16 + v2) * 16 + v3) * 16 + v4)

/-- Single-character JSON string escapes (other than `\uXXXX`). -/
def jsonEscChar (e : Char) : Option Char :=
  if e = '"' ∨ e = Char.ofNat 92 ∨ e = '/' then some e
  else if e = 'b' then some (Char.ofNat 8)
  else if e = 'f' then some (Char.ofNat 12)
  else if e = 'n' then some (Char.ofNat 10)
  else if e = 'r' then some (Char.ofNat 13)
  else if e = 't' then some (Char.ofNat 9)
  else none

/-- Body of a JSON string after the opening quote: returns the decoded characters and
the input after the closing quote. Lone UTF-16 surrogates (legal for `JSON.parse`)
are represented by U+FFFD, which Lean's `Char` forces. Fueled; each step consumes
at least one character. -/
def parseJsonStringBody : Nat → List Char → Option (List Char × List Char)
  | 0, _ => none
  | _ + 1, [] => none
  | fuel + 1, c :: rest =>
    if c = '"' then some ([], rest)
    else if c = Char.ofNat 92 then
      match rest with
      | [] => none
      | e :: rest2 =>
        match jsonEscChar e with
        | some ec => (parseJsonStringBody fuel rest2).map (fun r => (ec :: r.1, r.2))
        | none =>
          if e = 'u' then
            match rest2 with
            | h1 :: h2 :: h3 :: h4 :: rest3 =>
              match hex4 h1 h2 h3 h4 with
              | none => none
              | some v =>
                if 55296 ≤ v ∧ v ≤ 56319 then
                  match rest3 with
                  | bs :: u :: j1 :: j2 :: j3 :: j4 :: rest4 =>
                    if bs = Char.ofNat 92 ∧ u = 'u' then
                      match hex4 j1 j2 j3 j4 with
                      | some w =>
                        if 56320 ≤ w ∧ w ≤ 57343 then
                          (parseJsonStringBody fuel rest4).map (fun r =>
                            (Char.ofNat (65536 + (v - 55296) * 1024 + (w - 56320)) :: r.1, r.2))
                        else (parseJsonStringBody fuel rest3).map (fun r =>
                          (replacementChar :: r.1, r.2))
                      | none => (parseJsonStringBody fuel rest3).map (fun r =>
                          (replacementChar :: r.1, r.2))
                    else (parseJsonStringBody fuel rest3).map (fun r =>
                      (replacementChar :: r.1, r.2))
                  | _ => (parseJsonStringBody fuel rest3).map (fun r =>
                      (replacementChar :: r.1, r.2))
                else if 56320 ≤ v ∧ v ≤ 57343 then
                  (parseJsonStringBody fuel rest3).map (fun r => (replacementChar :: r.1, r.2))
                else (parseJsonStringBody fuel rest3).map (fun r => (Char.ofNat v :: r.1, r.2))
            | _ => none
          else none
    else if c.toNat < 32 then none
    else (parseJsonStringBody fuel rest).map (fun r => (c :: r.1, r.2))

/-- A JSON numeral (`-?int frac? exp?`, no leading zeros) and the remaining input. -/
def parseJsonNumber (s : List Char) : Option (ℚ × List Char) :=
  let p : Bool × List Char :=
    match s with
    | c :: r => if c = '-' then (true, r) else (false, s)
    | [] => (false, s)
  let ds := (p.2.span isDigitChar).1
  let s2 := (p.2.span isDigitChar).2
  if ds.isEmpty then none
  else if ds.length > 1 ∧ ds.head? = some '0' then none
  else
    let intVal : ℚ := (digitsToNat ds : ℚ)
    let fr : Option (ℚ × List Char) :=
      match s2 with
      | c :: r =>
        if c = '.' then
          let fs := (r.span isDigitChar).1
          if fs.isEmpty then none
          else some ((digitsToNat fs : ℚ) / ((10 : ℚ) ^ fs.length), (r.span isDigitChar).2)
        else some (0, s2)
      | [] => some (0, s2)
    match fr with
    | none => none
    | some (fracVal, s3) =>
      let ex : Option (Int × List Char) :=
        match s3 with
        | c :: r =>
          if c = 'e' ∨ c = 'E' then
            let q : Bool × List Char :=
              match r with
              | d :: r2 => if d = '-' then (true, r2) else if d = '+' then (false, r2) else (false, r)
              | [] => (false, r)
            let es := (q.2.span isDigitChar).1
            if es.isEmpty then none
            else some ((if q.1 then -1 else 1) * (digitsToNat es : Int), (q.2.span isDigitChar).2)
          else some (0, s3)
        | [] => some (0, s3)
      match ex with
      | none => none
      | some (e, s4) =>
        some ((if p.1 then -1 else 1) * (intVal + fracVal) * (10 : ℚ) ^ e, s4)

/-- Left brace / right brace characters. -/
def lbraceChar : Char := Char.ofNat 123

/-- Right brace character. -/
def rbraceChar : Char := Char.ofNat 125

mutual

/-- One JSON value (leading whitespace allowed) and the remaining input.
Fueled; every recursive descent consumes at least one character. -/
def parseJsonValue : Nat → List Char → Option (Json × List Char)
  | 0, _ => none
  | fuel + 1, s =>
    match skipJsonWs s with
    | [] => none
    | c :: rest =>
      if c = 'n' then
        match rest with
        | 'u' :: 'l' :: 'l' :: r => some (.null, r)
        | _ => none
      else if c = 't' then
        match rest with
        | 'r' :: 'u' :: 'e' :: r => some (.bool true, r)
        | _ => none
      else if c = 'f' then
        match rest with
        | 'a' :: 'l' :: 's' :: 'e' :: r => some (.bool false, r)
        | _ => none
      else if c = '"' then
        (parseJsonStringBody (rest.length + 1) rest).map (fun r => (.str r.1, r.2))
      else if c = '[' then
        match skipJsonWs rest with
        | d :: r2 => if d = ']' then some (.arr [], r2) else
            (parseJsonElems fuel (d :: r2)).map (fun r => (.arr r.1, r.2))
        | [] => none
      else if c = lbraceChar then
        match skipJsonWs rest with
        | d :: r2 => if d = rbraceChar then some (.obj [], r2) else
            (parseJsonMembers fuel (d :: r2)).map (fun r => (.obj r.1, r.2))
        | [] => none
      else if c = '-' ∨ isDigitChar c then
        (parseJsonNumber (c :: rest)).map (fun r => (.num r.1, r.2))
      else none

/-- Comma-separated JSON array elements up to the closing bracket. -/
def parseJsonElems : Nat → List Char → Option (List Json × List Char)
  | 0, _ => none
  | fuel + 1, s => do
    let (v, s1) ← parseJsonValue fuel s
    match skipJsonWs s1 with
    | ',' :: r => (parseJsonElems fuel r).map (fun p => (v :: p.1, p.2))
    | ']' :: r => some ([v], r)
    | _ => none

/-- Comma-separated JSON object members up to the closing brace. -/
def parseJsonMembers : Nat → List Char → Option (List (List Char × Json) × List Char)
  | 0, _ => none
  | fuel + 1, s =>
    match skipJsonWs s with
    | c :: r =>
      if c = '"' then do
        let (key, s1) ← parseJsonStringBody (r.length + 1) r
        match skipJsonWs s1 with
        | ':' :: r2 => do
          let (v, s3) ← parseJsonValue fuel r2
          match skipJsonWs s3 with
          | ',' :: r3 => (parseJsonMembers fuel r3).map (fun p => ((key, v) :: p.1, p.2))
          | d :: r3 =>
            if d = rbraceChar then some ([(key, v)], r3) else none
          | [] => none
        | _ => none
      else none
    | [] => none

end

/-- `JSON.parse`: a complete JSON text (trailing whitespace allowed); `none` models the
thrown `SyntaxError`. -/
def parseJson (s : List Char) : Option Json :=
  match parseJsonValue (s.length + 1) s with
  | some (v, rest) => if skipJsonWs rest = [] then some v else none
  | none => none

/-! ### `decodeURIComponent` -/

/-- A maximal run of consecutive `%XX` escapes starting at the head, as the byte list
they denote, plus the remaining input; `none` models a malformed escape (`URIError`). -/
def pctRun : List Char → Option (List Nat × List Char)
  | c0 :: c1 :: c2 :: rest =>
    if c0 = '%' then
      match hexDigitVal c1, hexDigitVal c2 with
      | some v1, some v2 =>
        if rest.head? = some '%' then
          match pctRun rest with
          | some (bs, r) => some ((v1 * 16 + v2) :: bs, r)
          | none => none
        else some ([v1 * 16 + v2], rest)
      | _, _ => none
    else none
  | _ => none

/-- `decodeURIComponent`: percent-escape runs are decoded as strict UTF-8 byte
sequences, other characters pass through; `none` models the thrown `URIError`.
Fueled; every step consumes at least one character. -/
def urlDecodeAux : Nat → List Char → Option (List Char)
  | 0, _ => none
  | _ + 1, [] => some []
  | fuel + 1, c :: rest =>
    if c = '%' then
      match pctRun (c :: rest) with
      | some (bs, r) => do
        let cs ← utf8DecodeStrict bs
        let tl ← urlDecodeAux fuel r
        some (cs ++ tl)
      | none => none
    else do
      let tl ← urlDecodeAux fuel rest
      some (c :: tl)

/-- `decodeURIComponent` on a character list. -/
def urlDecode (s : List Char) : Option (List Char) := urlDecodeAux (s.length + 1) s

/-! ### Payload decoding shared by both dialects -/

/-- A decoded packet payload: the structured value when `JSON.parse` succeeded,
otherwise the raw string (Client.ts:561-567 and 646-654). -/
inductive SMessage where
  | raw (s : List Char)
  | json (j : Json)

/-- Binary-dialect payload decoding (Client.ts:562-567): try `JSON.parse` on the
UTF-8-decoded payload string, fall back to the raw string. -/
def jsonOrRawBin (s : List Char) : SMessage :=
  match parseJson s with
  | some j => .json j
  | none => .raw s

/-- Text-dialect payload decoding (Client.ts:647-653): `JSON.parse(decodeURIComponent s)`
with fallback to the raw (undecoded) string when either step throws. -/
def jsonOrRawWs (s : List Char) : SMessage :=
  match urlDecode s with
  | none => .raw s
  | some d =>
    match parseJson d with
    | some j => .json j
    | none => .raw s

/-! ### Binary dialect decoding (`Client._readPacket`, Client.ts:511-597) -/

/-- The packet delivered to `_packetReceived` by the binary decoder (Client.ts:569-577):
the six int32s after the magic, the payload-size int32, and the decoded payload. -/
structure BinPacket where
  fcType : Int
  nFrom : Int
  nTo : Int
  nArg1 : Int
  nArg2 : Int
  sPayload : Int
  sMessage : Option SMessage

/-- The seven leading big-endian int32s of a frame (Client.ts:531-538);
`none` models the `RangeError` from reading past the end of the buffer. -/
def readHeader (buf : List Nat) : Option (Int × Int × Int × Int × Int × Int × Int) := do
  let magic ← readInt32BE buf 0
  let fcType ← readInt32BE buf 4
  let nFrom ← readInt32BE buf 8
  let nTo ← readInt32BE buf 12
  let nArg1 ← readInt32BE buf 16
  let nArg2 ← readInt32BE buf 20
  let sPayload ← readInt32BE buf 24
  some (magic, fcType, nFrom, nTo, nArg1, nArg2, sPayload)

/-- Result of running the binary decoder over a buffer: the packets delivered to
`_packetReceived` in order, and either the bytes retained for the next read
(`RangeError`s are swallowed, Client.ts:589-596) or a propagated framing error
(`Invalid packet received!`, Client.ts:555). -/
structure BinResult where
  packets : List BinPacket
  rest : Except Unit (List Nat)
deriving Nonempty

/-- One pass of `_readPacket` (Client.ts:511-597), fueled by iteration count:
read the 7-int32 header (incomplete ⇒ retain everything and wait for more data);
check the magic (mismatch ⇒ fatal framing error); if a payload is announced and not
fully buffered, retain everything; otherwise UTF-8-decode the payload, JSON-parse it
with raw fallback, deliver the packet, and continue on the remaining bytes
(Client.ts:580-588). -/
def readBinAux : Nat → List Nat → BinResult
  | 0, buf => ⟨[], .ok buf⟩
  | fuel + 1, buf =>
    match readHeader buf with
    | none => ⟨[], .ok buf⟩
    | some (magic, fcType, nFrom, nTo, nArg1, nArg2, sPayload) =>
      if magic ≠ MAGIC then ⟨[], .error ()⟩
      else if 0 < sPayload ∧ (28 + sPayload : Int) > (buf.length : Int) then ⟨[], .ok buf⟩
      else
        let pn := sPayload.toNat
        let strParam : Option (List Char) :=
          if 0 < sPayload then some (utf8DecodeLossy ((buf.drop 28).take pn)) else none
        let sMessage : Option SMessage :=
          match strParam with
          | some s => if s ≠ [] then some (jsonOrRawBin s) else none
          | none => none
        let pkt : BinPacket := ⟨fcType, nFrom, nTo, nArg1, nArg2, sPayload, sMessage⟩
        let r := readBinAux fuel (buf.drop (28 + pn))
        ⟨pkt :: r.packets, r.rest⟩

/-- `_readPacket` run to completion on the buffered bytes (every iteration consumes at
least 28 bytes, so `length` fuel is always sufficient). -/
def readPacket (buf : List Nat) : BinResult := readBinAux buf.length buf

/-! ### Text (WebSocket) dialect decoding (`_readWebSocketPacket`, Client.ts:606-666) -/

/-- `Client.webSocketNoiseFilter` (Client.ts:77): does the buffer match
the regex `^\d{4}\d+ \d+ \d+ \d+ \d+` ? Helper: `n` repetitions of `" \d+"`. -/
def spaceDigitsGroups : Nat → List Char → Bool
  | 0, _ => true
  | n + 1, s =>
    match s with
    | c :: r =>
      c = ' ' && !((r.span isDigitChar).1.isEmpty) && spaceDigitsGroups n (r.span isDigitChar).2
    | [] => false

/-- `Client.webSocketNoiseFilter.test(s)`: 4 digits, then at least one more digit,
then four `" \d+"` groups (a prefix match; trailing input is unconstrained). -/
def webSocketNoiseFilter (s : List Char) : Bool :=
  match s with
  | a :: b :: c :: d :: rest =>
    isDigitChar a && isDigitChar b && isDigitChar c && isDigitChar d &&
    !((rest.span isDigitChar).1.isEmpty) && spaceDigitsGroups 4 (rest.span isDigitChar).2
  | _ => false

/-- The noise-shifting loop (Client.ts:617-619): drop leading characters while the
filter fails and more than 4 characters remain. Fueled. -/
def shiftNoiseAux : Nat → List Char → List Char
  | 0, s => s
  | fuel + 1, s =>
    if s.length ≤ 4 then s
    else if webSocketNoiseFilter s then s
    else shiftNoiseAux fuel (s.drop 1)

/-- The noise-shifting loop run to completion. -/
def shiftNoise (s : List Char) : List Char := shiftNoiseAux s.length s

/-- JS `String.prototype.split(sep)` (single-character separator, no limit). -/
def splitChar : List Char → Char → List (List Char)
  | [], _ => [[]]
  | c :: cs, sep =>
    if c = sep then [] :: splitChar cs sep
    else
      match splitChar cs sep with
      | [] => [[c]]
      | p :: ps => (c :: p) :: ps

/-- The packet delivered to `_packetReceived` by the text decoder (Client.ts:656-664).
Fields are `Option Int` because `parseInt` can yield `NaN` and missing split pieces
yield `undefined`. -/
structure WsPacket where
  fcType : Option Int
  nFrom : Option Int
  nTo : Option Int
  nArg1 : Option Int
  nArg2 : Option Int
  sPayload : Nat
  sMessage : Option SMessage

/-- Turn one extracted message body into a packet (Client.ts:639-664): split on spaces
with limit 5, `parseInt` each piece, skip the pieces plus 5 separator positions, and
decode the remainder (if nonempty) as the payload. -/
def mkWsPacket (current : List Char) : WsPacket :=
  let pieces := (splitChar current ' ').take 5
  let intParamsLength := (pieces.map List.length).sum + 5
  let payload := current.drop intParamsLength
  { fcType := (pieces.get? 0).bind parseIntJS
    nFrom := (pieces.get? 1).bind parseIntJS
    nTo := (pieces.get? 2).bind parseIntJS
    nArg1 := (pieces.get? 3).bind parseIntJS
    nArg2 := (pieces.get? 4).bind parseIntJS
    sPayload := payload.length
    sMessage := if payload.length = 0 then none else some (jsonOrRawWs payload) }

/-- Result of running the text decoder over a buffered string: delivered packets plus
either the retained buffer or a propagated `Invalid packet received!` error
(Client.ts:627). -/
structure WsResult where
  packets : List WsPacket
  rest : Except Unit (List Char)
deriving Nonempty

/-- One `while` pass of `_readWebSocketPacket` (Client.ts:606-666), fueled:
stop while at most 4 characters are buffered; shift noise; parse the 4-digit size tag
(`NaN` ⇒ fatal error — unreachable once the filter matched); if the buffer (still
including the tag) is shorter than the tag value, wait for more data; otherwise
consume the 4 tag characters plus `tag` characters of body, deliver the packet, and
loop on the remainder. -/
def readWsAux : Nat → List Char → WsResult
  | 0, buf => ⟨[], .ok buf⟩
  | fuel + 1, buf =>
    if buf.length ≤ 4 then ⟨[], .ok buf⟩
    else
      let buf1 := shiftNoise buf
      if buf1.length ≤ 4 then ⟨[], .ok buf1⟩
      else
        match parseIntJS (buf1.take 4) with
        | none => ⟨[], .error ()⟩
        | some messageLength =>
          if (buf1.length : Int) < messageLength then ⟨[], .ok buf1⟩
          else
            let afterTag := buf1.drop 4
            let current := afterTag.take messageLength.toNat
            let buf2 := afterTag.drop messageLength.toNat
            let r := readWsAux fuel buf2
            ⟨mkWsPacket current :: r.packets, r.rest⟩

/-- `_readWebSocketPacket` run to completion on the buffered string (every iteration
consumes at least one character, so `length` fuel is always sufficient). -/
def readWebSocketPacket (buf : List Char) : WsResult := readWsAux buf.length buf

/-! ### Packet dispatcher: state-update gating (`_packetReceived`, Client.ts:263-499) -/

/-- The packet kinds the dispatcher special-cases. Modelled from the spec (§6):
`Constants.ts` is not among the available sources, so the FCTYPE enumeration is an
abstract inductive; the few places where a packet *field* is compared against an
FCTYPE/FCCHAN/FCLEVEL numeric code take that code as an explicit parameter. -/
inductive FCT where
  | NULL
  | LOGIN
  | DETAILS
  | ROOMHELPER
  | SESSIONSTATE
  | ADDFRIEND
  | ADDIGNORE
  | CMESG
  | PMESG
  | TXPROFILE
  | USERNAMELOOKUP
  | MYCAMSTATE
  | MYWEBCAM
  | JOINCHAN
  | TAGS
  | BOOKMARKS
  | EXTDATA
  | METRICS
  | MANAGELIST
  | ROOMDATA
deriving DecidableEq

/-- The fields of a payload object the state-update handler reads (Client.ts:319-322):
`lv`, `sid`, `uid`, each possibly absent (`undefined`). A payload that is a plain
string has all three absent. -/
structure SessionMsg where
  uid : Option Int
  sid : Option Int
  lv : Option Int
deriving DecidableEq

/-- Modelled from the spec: `Model.ts` is not among the available sources. Per spec
§3 ("created on first reference (either explicit lookup with auto-create, or on first
server mention carrying model-level identification)") and §4.E, `Model.getModel(uid,
createIfNecessary)` returns the existing model for `uid`, creates it when
`createIfNecessary` is set, and otherwise returns `undefined`. The registry is the
list of currently known uids. -/
def getModel (registry : List Int) (uid : Int) (createIfNecessary : Bool) : Option Int :=
  if registry.contains uid then some uid
  else if createIfNecessary then some uid
  else none

/-- Is this one of the twelve fcTypes that can trigger a user state update
(Client.ts:290-301)? -/
def isStateUpdateType (fc : FCT) : Bool :=
  match fc with
  | .DETAILS | .ROOMHELPER | .SESSIONSTATE | .ADDFRIEND | .ADDIGNORE | .CMESG | .PMESG
  | .TXPROFILE | .USERNAMELOOKUP | .MYCAMSTATE | .MYWEBCAM | .JOINCHAN => true
  | _ => false

/-- The three skip conditions (Client.ts:306-315). `tokenincCode` is the numeric value
of `FCTYPE.TOKENINC` and `partCode` that of `FCCHAN.PART` (modelled from the spec,
`Constants.ts` being unavailable). -/
def stateUpdateSkip (tokenincCode partCode : Int) (fc : FCT) (nFrom nArg2 : Int) : Bool :=
  (fc = .DETAILS && nFrom = tokenincCode) ||
  (fc = .ROOMHELPER && nArg2 < 100) ||
  (fc = .JOINCHAN && nArg2 = partCode)

/-- The uid the handler merges under (Client.ts:320-328): the payload's `uid`,
replaced by `sid` when `uid == 0 && sid > 0`, and taken from `packet.aboutModel.uid`
when still absent. -/
def resolveMsgUid (m : SessionMsg) (aboutModelUid : Option Int) : Option Int :=
  let uid0 := m.uid
  let uid1 :=
    if uid0 = some 0 ∧ (match m.sid with | some s => decide (0 < s) | none => false) = true then
      m.sid
    else uid0
  if uid1 = none ∧ aboutModelUid ≠ none then aboutModelUid else uid1

/-- The merge action taken by the state-update branch when it is not skipped
(Client.ts:317-342): `none` when no registry merge happens; `some (u, create)` when
`possibleModel.merge` runs on the model for uid `u` obtained from
`Model.getModel(u, lv === FCLEVEL.MODEL)`. `modelLevelCode` is the numeric value of
`FCLEVEL.MODEL`. -/
def stateUpdateMerge (modelLevelCode : Int) (registry : List Int)
    (msg : Option SessionMsg) (aboutModelUid : Option Int) : Option (Int × Bool) :=
  match msg with
  | none => none
  | some m =>
    match resolveMsgUid m aboutModelUid with
    | none => none
    | some u =>
      if u ≠ -1 ∧ (m.lv = none ∨ m.lv = some modelLevelCode) then
        match getModel registry u (m.lv = some modelLevelCode) with
        | some mu => some (mu, m.lv = some modelLevelCode)
        | none => none
      else none

/-- The full state-update gate of `_packetReceived` for one received packet:
only the twelve state-update fcTypes reach the branch; the three skip conditions
suppress the merge; otherwise the merge action of `stateUpdateMerge` is taken. -/
def packetStateUpdate (tokenincCode partCode modelLevelCode : Int) (fc : FCT)
    (nFrom nArg2 : Int) (msg : Option SessionMsg) (aboutModelUid : Option Int)
    (registry : List Int) : Option (Int × Bool) :=
  if isStateUpdateType fc then
    if stateUpdateSkip tokenincCode partCode fc nFrom nArg2 then none
    else stateUpdateMerge modelLevelCode registry msg aboutModelUid
  else none

/-! ### LOGIN packet handling (`_packetReceived`, Client.ts:268-289) -/

/-- The client identity fields the LOGIN handler touches. -/
structure ClientIdentity where
  sessionId : Int
  uid : Option Int
  username : List Char
deriving DecidableEq

/-- A command passed to `TxCmd` (fcType plus the three numeric arguments). -/
structure TxCommand where
  fcType : FCT
  nTo : Int
  nArg1 : Int
  nArg2 : Int
deriving DecidableEq

/-- The two ways the LOGIN handler can throw: `nArg1 != 0` (Client.ts:271-273) and a
non-string payload failing the assertion (Client.ts:286). -/
inductive LoginError where
  | loginFailed
  | badResponseFormat
deriving DecidableEq

/-- Outcome of the LOGIN handler: the (possibly updated) identity, the thrown error if
any, and the commands issued. -/
structure LoginOutcome where
  identity : ClientIdentity
  err : Option LoginError
  sent : List TxCommand
deriving DecidableEq

/-- The LOGIN branch of `_packetReceived` (Client.ts:268-289): `nArg1 != 0` throws and
leaves the identity alone; a string payload records `sessionId = nTo`, `uid = nArg2`,
`username = payload` and then issues `TxCmd(ROOMDATA, 0, 1, 0)` behind
`ensureConnected(-1)`, which resolves exactly when the client state is ACTIVE
(Client.ts:1499-1505); any other payload fails the assertion. -/
def loginPacketHandler (st : ClientIdentity) (clientState : CState)
    (nTo nArg1 nArg2 : Int) (sMessage : Option SMessage) : LoginOutcome :=
  if nArg1 ≠ 0 then ⟨st, some .loginFailed, []⟩
  else
    match sMessage with
    | some (.raw s) =>
      ⟨⟨nTo, some nArg2, s⟩, none,
        if clientState = .ACTIVE then [⟨.ROOMDATA, 0, 1, 0⟩] else []⟩
    | _ => ⟨st, some .badResponseFormat, []⟩

/-! ### Binary dialect encoding (`TxCmd`, Client.ts:928-967) -/

/-- JS `String.prototype.length` of a character list: the number of UTF-16 code units. -/
def utf16Len (s : List Char) : Nat :=
  (s.map (fun c => if 65536 ≤ c.toNat then 2 else 1)).sum

/-- `Buffer.prototype.write(s, offset)` with `space` bytes available: encodes as UTF-8,
stopping before the first character that does not fit entirely (partially encoded
characters are never written). -/
def bufWriteChars : List Char → Nat → List Nat
  | [], _ => []
  | c :: cs, space =>
    let bs := utf8Bytes c
    if bs.length ≤ space then bs ++ bufWriteChars cs (space - bs.length)
    else []

/-- Pad a byte list with zeros up to `n` bytes (`new Buffer(n)` is zero-filled on the
Node versions this library supports). -/
def zeroPad (l : List Nat) (n : Nat) : List Nat := l ++ List.replicate (n - l.length) 0

/-- The binary-dialect frame written by `TxCmd` (Client.ts:934-952): seven big-endian
int32s (MAGIC, nType, sessionId, nTo, nArg1, nArg2, `sMsg.length`) followed by the
payload area. `msgLength` is JS `sMsg.length` — UTF-16 code units, not bytes — and the
payload area is `buf.write(sMsg, 28)` into the remaining `msgLength` bytes of the
zero-filled buffer. An absent or empty `sMsg` is falsy, so nothing is written. -/
def txCmdBinaryFrame (sessionId : Int) (nType : Int) (nTo nArg1 nArg2 : Int)
    (sMsg : Option (List Char)) : List Nat :=
  let msgLength : Nat :=
    match sMsg with
    | some s => if s = [] then 0 else utf16Len s
    | none => 0
  let payloadArea : List Nat :=
    match sMsg with
    | some s => if s = [] then List.replicate msgLength 0
        else zeroPad (bufWriteChars s msgLength) msgLength
    | none => List.replicate msgLength 0
  writeInt32BE MAGIC ++ writeInt32BE nType ++ writeInt32BE sessionId ++ writeInt32BE nTo ++
    writeInt32BE nArg1 ++ writeInt32BE nArg2 ++ writeInt32BE (msgLength : Int) ++ payloadArea

/-! ### `encodeRawChat` pre-filters (Client.ts:790-809) -/

/-- The backtick character. -/
def backtickChar : Char := Char.ofNat 96

/-- The single-quote character. -/
def squoteChar : Char := Char.ofNat 39

/-- JS `String.prototype.replace(/pat/g, rep)` for a literal pattern: left-to-right,
non-overlapping replacement of every occurrence. Fueled; every step consumes at least
one character (patterns used here are nonempty). -/
def replaceAllAux : Nat → List Char → List Char → List Char → List Char
  | 0, s, _, _ => s
  | _ + 1, [], _, _ => []
  | fuel + 1, c :: cs, pat, rep =>
    if pat ≠ [] ∧ pat.isPrefixOf (c :: cs) then
      rep ++ replaceAllAux fuel ((c :: cs).drop pat.length) pat rep
    else c :: replaceAllAux fuel cs pat rep

/-- Global literal replacement run to completion. -/
def replaceAll (s pat rep : List Char) : List Char := replaceAllAux s.length s pat rep

/-- Does `pat` occur as a contiguous substring of `s`? -/
def hasSub : List Char → List Char → Bool
  | s, pat =>
    if pat.isPrefixOf s then true
    else
      match s with
      | [] => false
      | _ :: cs => hasSub cs pat

/-- The synchronous part of `encodeRawChat` (Client.ts:790-809): messages that are all
whitespace (`/^\s*$/`) or contain no `:` resolve unchanged without touching the emote
parser (`.inl`); everything else has every backtick, `<~` and `~>` replaced by a
single quote (in that order) and is handed to the emote parser (`.inr`). -/
def encodeRawChat (rawMsg : List Char) : Sum (List Char) (List Char) :=
  if rawMsg.all jsWhitespace ∨ rawMsg.contains ':' = false then .inl rawMsg
  else .inr (replaceAll (replaceAll (replaceAll rawMsg [backtickChar] [squoteChar])
    ['<', '~'] [squoteChar]) ['~', '>'] [squoteChar])

/-! ## Theorems -/

/-- C3 counterexample: as literally stated the round-trip laws fail on the embedded
code. With the default (non-CamYou) bands: a negative id is "below CHANNEL.ID_START"
yet `toUserId (toRoomId u)` returns `u + CHANNEL.ID_START`; and for a group-room id
(`SESSCHAN` band) `toRoomId (toUserId x)` lands on the public room, not on `x`. -/
theorem id_roundtrip_counterexample :
    toUserId specBands (toRoomId specBands (-1) false) ≠ -1 ∧
    toRoomId specBands (toUserId specBands 200000000) false ≠
      toRoomId specBands 200000000 false := by
  constructor <;> decide

/-- C3 (amended): with the spec's band ordering (and the relation
`SESSCHAN.ID_START = 2·CHANNEL.ID_START` forced by the two laws together),
`toUserId (toRoomId u) = u` holds for every id in the non-negative user-id band
`0 ≤ u < CHANNEL.ID_START`, and `toRoomId (toUserId x) = toRoomId x` holds for every
id below the group-room base `SESSCHAN.ID_START` (both with camYou = false). -/
theorem id_normalization_roundtrip_amended (B : IdBands)
    (hc : 0 < B.channelIdStart)
    (hs : B.sesschanIdStart = 2 * B.channelIdStart)
    (h3 : B.sesschanIdStart ≤ 300000000)
    (h4 : (300000000 : Int) ≤ B.camchanIdStart)
    (h5 : B.camchanIdStart ≤ 1000000000) :
    (∀ u : Int, 0 ≤ u → u < B.channelIdStart →
      toUserId B (toRoomId B u false) = u) ∧
    (∀ x : Int, x < B.sesschanIdStart →
      toRoomId B (toUserId B x) false = toRoomId B x false) := by
  constructor
  · intro u h0 h1
    simp only [toUserId, toRoomId, Bool.false_eq_true, if_false]
    split_ifs <;> omega
  · intro x hx
    simp only [toUserId, toRoomId, Bool.false_eq_true, if_false]
    split_ifs <;> omega

/-- C3 witness: the amended round-trip laws at the concrete modelled bands. -/
theorem id_normalization_roundtrip_witness :
    toUserId specBands (toRoomId specBands 12345 false) = 12345 ∧
    toRoomId specBands (toUserId specBands 150000000) false =
      toRoomId specBands 150000000 false :=
  ⟨(id_normalization_roundtrip_amended specBands (by decide) (by decide) (by decide)
      (by decide) (by decide)).1 12345 (by decide) (by decide),
   (id_normalization_roundtrip_amended specBands (by decide) (by decide) (by decide)
      (by decide) (by decide)).2 150000000 (by decide)⟩

/-- Step bound for the reconnect backoff: from any state with
`5 ≤ secs < 3600`, one event keeps `5 ≤ secs < 3600`. -/
theorem connStep_bounds (s : ReconnectState) (e : ConnEvent)
    (h1 : 5 ≤ s.secs) (h2 : s.secs < 3600) :
    5 ≤ (connStep s e).secs ∧ (connStep s e).secs < 3600 := by
  cases e with
  | connected =>
    simp only [connStep, initialReconnectSeconds]
    norm_num
  | disconnected m =>
    simp only [connStep, maximumReconnectSeconds, reconnectBackOffMultiplier]
    split_ifs with hidle hm hlt
    · exact ⟨h1, h2⟩
    · exact ⟨h1, h2⟩
    · constructor <;> simp only [ReconnectState.secs] <;> linarith
    · exact ⟨h1, h2⟩

/-- Backoff bounds along any event trace, from any in-bounds start state. -/
theorem connFold_bounds (evs : List ConnEvent) :
    ∀ s : ReconnectState, 5 ≤ s.secs → s.secs < 3600 →
      5 ≤ (evs.foldl connStep s).secs ∧ (evs.foldl connStep s).secs < 3600 := by
  induction evs with
  | nil => intro s h1 h2; exact ⟨h1, h2⟩
  | cons e rest ih =>
    intro s h1 h2
    rw [List.foldl_cons]
    obtain ⟨g1, g2⟩ := connStep_bounds s e h1 h2
    exact ih _ g1 g2

/-- A non-manual disconnection from a non-IDLE state multiplies the backoff by 1.5
while it is below the cap. -/
theorem connStep_disc_lt (st : CState) (q : ℚ) (hst : st ≠ CState.IDLE) (h : q < 2400) :
    connStep ⟨st, q⟩ (.disconnected false) = ⟨.PENDING, q * (3 / 2)⟩ := by
  simp only [connStep, maximumReconnectSeconds, reconnectBackOffMultiplier]
  rw [if_neg hst, if_neg (by decide), if_pos h]

/-- A non-manual disconnection from a non-IDLE state leaves the backoff unchanged once
it is at or above the cap. -/
theorem connStep_disc_ge (st : CState) (q : ℚ) (hst : st ≠ CState.IDLE)
    (h : ¬ q < 2400) :
    connStep ⟨st, q⟩ (.disconnected false) = ⟨.PENDING, q⟩ := by
  simp only [connStep, maximumReconnectSeconds, reconnectBackOffMultiplier]
  rw [if_neg hst, if_neg (by decide), if_neg h]

/-- Evaluation of 16 consecutive non-manual disconnections from a fresh ACTIVE state. -/
theorem connFold_sixteen :
    List.foldl connStep ⟨CState.ACTIVE, 5⟩
      (List.replicate 16 (ConnEvent.disconnected false)) =
      ⟨CState.PENDING, 215233605 / 65536⟩ := by
  rw [show List.replicate 16 (ConnEvent.disconnected false) = [ConnEvent.disconnected false, ConnEvent.disconnected false, ConnEvent.disconnected false, ConnEvent.disconnected false, ConnEvent.disconnected false, ConnEvent.disconnected false, ConnEvent.disconnected false, ConnEvent.disconnected false, ConnEvent.disconnected false, ConnEvent.disconnected false, ConnEvent.disconnected false, ConnEvent.disconnected false, ConnEvent.disconnected false, ConnEvent.disconnected false, ConnEvent.disconnected false, ConnEvent.disconnected false] from rfl]
  rw [List.foldl_cons, connStep_disc_lt _ _ (by decide) (by norm_num)]
  rw [List.foldl_cons, connStep_disc_lt _ _ (by decide) (by norm_num)]
  rw [List.foldl_cons, connStep_disc_lt _ _ (by decide) (by norm_num)]
  rw [List.foldl_cons, connStep_disc_lt _ _ (by decide) (by norm_num)]
  rw [List.foldl_cons, connStep_disc_lt _ _ (by decide) (by norm_num)]
  rw [List.foldl_cons, connStep_disc_lt _ _ (by decide) (by norm_num)]
  rw [List.foldl_cons, connStep_disc_lt _ _ (by decide) (by norm_num)]
  rw [List.foldl_cons, connStep_disc_lt _ _ (by decide) (by norm_num)]
  rw [List.foldl_cons, connStep_disc_lt _ _ (by decide) (by norm_num)]
  rw [List.foldl_cons, connStep_disc_lt _ _ (by decide) (by norm_num)]
  rw [List.foldl_cons, connStep_disc_lt _ _ (by decide) (by norm_num)]
  rw [List.foldl_cons, connStep_disc_lt _ _ (by decide) (by norm_num)]
  rw [List.foldl_cons, connStep_disc_lt _ _ (by decide) (by norm_num)]
  rw [List.foldl_cons, connStep_disc_lt _ _ (by decide) (by norm_num)]
  rw [List.foldl_cons, connStep_disc_lt _ _ (by decide) (by norm_num)]
  rw [List.foldl_cons, connStep_disc_lt _ _ (by decide) (by norm_num)]
  rw [List.foldl_nil]
  congr 1
  norm_num

/-- C4 counterexample: after a successful connection and 16 consecutive non-manual
disconnections, `_currentReconnectSeconds` is 5·(3/2)^16 = 215233605/65536 ≈ 3284.2,
which exceeds the configured cap of 2400 (the guard only stops *further*
multiplication, it does not clamp); the 17th disconnection no longer multiplies. -/
theorem reconnect_backoff_cap_counterexample :
    2400 < (connRun (.connected :: List.replicate 16 (.disconnected false))).secs ∧
    (connRun (.connected :: List.replicate 16 (.disconnected false))).secs =
      215233605 / 65536 ∧
    (connRun (.connected :: (List.replicate 16 (.disconnected false) ++
        [.disconnected false]))).secs =
      (connRun (.connected :: List.replicate 16 (.disconnected false))).secs := by
  have hconn : connStep ⟨CState.IDLE, initialReconnectSeconds⟩ ConnEvent.connected =
      ⟨CState.ACTIVE, 5⟩ := rfl
  refine ⟨?_, ?_, ?_⟩
  · rw [connRun, List.foldl_cons, hconn, connFold_sixteen]
    norm_num
  · rw [connRun, List.foldl_cons, hconn, connFold_sixteen]
  · rw [connRun, List.foldl_cons, hconn, List.foldl_append, connFold_sixteen,
      List.foldl_cons, connStep_disc_ge _ _ (by decide) (by norm_num), List.foldl_nil,
      connRun, List.foldl_cons, hconn, connFold_sixteen]

/-- C4 (amended): `Client._currentReconnectSeconds` starts at the base of 5 seconds,
stays in `[5, 3600)` in every reachable state (3600 = cap × multiplier; it can exceed
the 2400 cap, but only by one final multiplication), is multiplied by 1.5 on a
disconnection that arms a reconnect exactly while it is still below the 2400 cap
(and left unchanged once at or above it), and is reset to the base 5 on every
transition to the Active state. -/
theorem reconnect_backoff_amended :
    (connRun []).secs = 5 ∧
    (∀ evs : List ConnEvent,
      5 ≤ (connRun evs).secs ∧ (connRun evs).secs < 3600) ∧
    (∀ evs : List ConnEvent, connRun (evs ++ [.connected]) = ⟨.ACTIVE, 5⟩) ∧
    (∀ s : ReconnectState, s.st ≠ .IDLE → s.secs < 2400 →
      (connStep s (.disconnected false)).secs = s.secs * (3 / 2)) ∧
    (∀ s : ReconnectState, s.st ≠ .IDLE → 2400 ≤ s.secs →
      (connStep s (.disconnected false)).secs = s.secs) := by
  refine ⟨rfl, ?_, ?_, ?_, ?_⟩
  · intro evs
    exact connFold_bounds evs ⟨.IDLE, 5⟩ (by norm_num) (by norm_num)
  · intro evs
    rw [connRun, List.foldl_append]
    rfl
  · intro s hst hlt
    simp only [connStep, maximumReconnectSeconds, reconnectBackOffMultiplier]
    rw [if_neg hst, if_neg (by simp), if_pos hlt]
  · intro s hst hge
    simp only [connStep, maximumReconnectSeconds, reconnectBackOffMultiplier]
    rw [if_neg hst, if_neg (by simp), if_neg (by linarith)]

/-- C4 witness: the amended facts at concrete states and traces. -/
theorem reconnect_backoff_witness :
    5 ≤ (connRun [.connected, .disconnected false]).secs ∧
    (connStep ⟨.ACTIVE, 5⟩ (.disconnected false)).secs = 5 * (3 / 2) ∧
    (connStep ⟨.PENDING, 2400⟩ (.disconnected false)).secs = 2400 :=
  ⟨(reconnect_backoff_amended.2.1 [.connected, .disconnected false]).1,
   reconnect_backoff_amended.2.2.2.1 ⟨.ACTIVE, 5⟩ (by decide) (by norm_num),
   reconnect_backoff_amended.2.2.2.2 ⟨.PENDING, 2400⟩ (by decide) (by norm_num)⟩

/-- C5 counterexample: a transient (non-manual, auto-reconnecting: the resulting state
is PENDING) disconnect of the single logged-in client drops the refcount to zero and
*does* reset the model registry. -/
theorem registry_reset_counterexample :
    disconnectedEffect true false 1 .ACTIVE = (0, .PENDING, true) := by decide

/-- C5 (amended): `Model.reset()` runs only when the logged-in-client refcount reaches
zero, and a transient disconnect never discards registry state *provided at least one
other logged-in connected client remains* (refcount ≥ 2 before the disconnect); the
disconnect of the last logged-in client — even a transient one — resets the registry. -/
theorem registry_reset_guard_amended :
    (∀ (l m : Bool) (c : Nat) (st : CState),
      (disconnectedEffect l m c st).2.2 = true → (disconnectedEffect l m c st).1 = 0) ∧
    (∀ (c : Nat) (st : CState), 2 ≤ c → st ≠ .IDLE →
      (disconnectedEffect true false c st).2.2 = false ∧
      (disconnectedEffect true false c st).2.1 = .PENDING) := by
  constructor
  · intro l m c st h
    simp only [disconnectedEffect] at h ⊢
    split_ifs at h ⊢ <;> simp_all
  · intro c st hc hst
    have hpos : 0 < c := by omega
    simp only [disconnectedEffect, if_neg hst]
    simp only [gt_iff_lt, hpos, and_true, true_and, if_pos, decide_eq_true_eq]
    refine ⟨?_, rfl⟩
    simp only [decide_eq_false_iff_not]
    omega

/-- C5 witness: the amended guard at concrete refcounts. -/
theorem registry_reset_guard_witness :
    (disconnectedEffect true true 0 .ACTIVE).1 = 0 ∧
    (disconnectedEffect true false 2 .ACTIVE).2.2 = false :=
  ⟨registry_reset_guard_amended.1 true true 0 .ACTIVE (by decide),
   (registry_reset_guard_amended.2 2 .ACTIVE (by norm_num) (by decide)).1⟩

/-- Step invariant for the CLIENT_MODELSLOADED count within one connection: the count
stays at most 1 and equals 1 exactly when both completion flags are set. -/
theorem mlFold_inv (s : MLState) (n : Nat) (e : MLEvent) (he : e ≠ .disconnect)
    (h1 : n ≤ 1) (h2 : n = 1 ↔ (s.completedModels = true ∧ s.completedTags = true)) :
    (mlFold (s, n) e).2 ≤ 1 ∧
    ((mlFold (s, n) e).2 = 1 ↔
      ((mlFold (s, n) e).1.completedModels = true ∧
        (mlFold (s, n) e).1.completedTags = true)) := by
  cases e with
  | disconnect => exact absurd rfl he
  | camsList =>
    obtain ⟨m, t⟩ := s
    cases m <;> cases t <;> simp [mlFold, mlStep] at h2 ⊢ <;> omega
  | tagsList =>
    obtain ⟨m, t⟩ := s
    cases m <;> cases t <;> simp [mlFold, mlStep] at h2 ⊢ <;> omega

/-- The CLIENT_MODELSLOADED count along any disconnect-free trace is at most 1, from
any start state satisfying the invariant. -/
theorem mlFold_count (evs : List MLEvent) :
    ∀ (s : MLState) (n : Nat), MLEvent.disconnect ∉ evs → n ≤ 1 →
      (n = 1 ↔ (s.completedModels = true ∧ s.completedTags = true)) →
      (evs.foldl mlFold (s, n)).2 ≤ 1 := by
  induction evs with
  | nil => intro s n _ h1 _; simpa using h1
  | cons e rest ih =>
    intro s n hmem h1 h2
    have he : e ≠ .disconnect := fun h => hmem (h ▸ List.mem_cons_self e rest)
    have hrest : MLEvent.disconnect ∉ rest := fun h => hmem (List.mem_cons_of_mem _ h)
    rw [List.foldl_cons]
    obtain ⟨g1, g2⟩ := mlFold_inv s n e he h1 h2
    have := ih (mlFold (s, n) e).1 (mlFold (s, n) e).2 hrest g1 g2
    simpa using this

/-- C9: CLIENT_MODELSLOADED is emitted at most once per connection (along any
disconnect-free event trace from a fresh connection); every emitting step leaves both
`completedModels` and `completedTags` true; and a disconnect resets both flags (so the
event can fire again on a later connection). -/
theorem modelsloaded_once_per_connection :
    (∀ evs : List MLEvent, MLEvent.disconnect ∉ evs → (mlRun evs).2 ≤ 1) ∧
    (∀ (s : MLState) (e : MLEvent), (mlStep s e).2 = true →
      (mlStep s e).1.completedModels = true ∧ (mlStep s e).1.completedTags = true) ∧
    (∀ s : MLState, mlStep s .disconnect = (⟨false, false⟩, false)) := by
  refine ⟨?_, ?_, ?_⟩
  · intro evs hmem
    exact mlFold_count evs ⟨false, false⟩ 0 hmem (by omega) (by simp)
  · intro s e h
    cases e with
    | camsList =>
      obtain ⟨m, t⟩ := s
      cases m <;> cases t <;> simp_all [mlStep]
    | tagsList =>
      obtain ⟨m, t⟩ := s
      cases m <;> cases t <;> simp_all [mlStep]
    | disconnect =>
      obtain ⟨m, t⟩ := s
      simp [mlStep] at h
  · intro s
    rfl

/-- C9 witness: a CAMS list, a TAGS list (emission), then repeated lists emit nothing
more — the count over the whole connection is at most one. -/
theorem modelsloaded_once_witness :
    (mlRun [MLEvent.camsList, MLEvent.tagsList, MLEvent.camsList, MLEvent.tagsList]).2 ≤ 1 :=
  modelsloaded_once_per_connection.1 _ (by decide)

/-- C7: LOGIN handling. A LOGIN packet with `nArg1 != 0` raises the fatal login
failure and leaves sessionId/uid/username unchanged (and sends nothing); with
`nArg1 == 0` and a string payload, on the active connection the handler records
`sessionId = nTo`, `uid = nArg2`, `username = payload` and immediately issues the
ROOMDATA subscription command `TxCmd(ROOMDATA, 0, 1, 0)`. -/
theorem login_handling (st : ClientIdentity) (cs : CState) (nTo nArg1 nArg2 : Int)
    (sMessage : Option SMessage) :
    (nArg1 ≠ 0 →
      loginPacketHandler st cs nTo nArg1 nArg2 sMessage =
        ⟨st, some .loginFailed, []⟩) ∧
    (nArg1 = 0 → ∀ s : List Char, sMessage = some (.raw s) → cs = .ACTIVE →
      loginPacketHandler st cs nTo nArg1 nArg2 sMessage =
        ⟨⟨nTo, some nArg2, s⟩, none, [⟨.ROOMDATA, 0, 1, 0⟩]⟩) := by
  constructor
  · intro h
    simp [loginPacketHandler, h]
  · intro h s hs hcs
    subst h hs hcs
    simp [loginPacketHandler]

/-- C7 witness: a successful LOGIN response on an active connection. -/
theorem login_handling_witness :
    loginPacketHandler ⟨0, none, []⟩ .ACTIVE 7 0 42 (some (.raw ['g'])) =
      ⟨⟨7, some 42, ['g']⟩, none, [⟨.ROOMDATA, 0, 1, 0⟩]⟩ :=
  (login_handling ⟨0, none, []⟩ .ACTIVE 7 0 42 (some (.raw ['g']))).2 rfl ['g'] rfl rfl

/-- C6: state-update gating. For packets of the twelve state-update fcTypes, no
registry merge occurs under the three skip conditions; any merge that does occur used
the uid resolved from the payload (uid, replaced by sid when uid == 0 and sid > 0,
else aboutModel.uid) and happened only with `lv` absent (merging only into an
already-present model) or `lv == FCLEVEL.MODEL` (auto-creating). -/
theorem state_update_gating (tok part lvModel : Int) (fc : FCT) (nFrom nArg2 : Int)
    (msg : Option SessionMsg) (aboutUid : Option Int) (registry : List Int) :
    ((fc = .DETAILS ∧ nFrom = tok) ∨ (fc = .ROOMHELPER ∧ nArg2 < 100) ∨
      (fc = .JOINCHAN ∧ nArg2 = part) →
      packetStateUpdate tok part lvModel fc nFrom nArg2 msg aboutUid registry = none) ∧
    (msg = none →
      packetStateUpdate tok part lvModel fc nFrom nArg2 msg aboutUid registry = none) ∧
    (∀ (u : Int) (create : Bool),
      packetStateUpdate tok part lvModel fc nFrom nArg2 msg aboutUid registry =
        some (u, create) →
      ∃ m, msg = some m ∧ resolveMsgUid m aboutUid = some u ∧ u ≠ -1 ∧
        (m.lv = none ∨ m.lv = some lvModel) ∧
        (create = true ↔ m.lv = some lvModel) ∧
        (create = false → registry.contains u = true)) := by
  refine ⟨?_, ?_, ?_⟩
  · intro h
    rcases h with ⟨h1, h2⟩ | ⟨h1, h2⟩ | ⟨h1, h2⟩ <;> subst h1 <;>
      simp [packetStateUpdate, isStateUpdateType, stateUpdateSkip, h2]
  · intro h
    subst h
    simp [packetStateUpdate, stateUpdateMerge]
  · intro u create h
    simp only [packetStateUpdate] at h
    by_cases hty : isStateUpdateType fc = true
    case neg => simp [hty] at h
    rw [if_pos hty] at h
    by_cases hskip : stateUpdateSkip tok part fc nFrom nArg2 = true
    · simp [hskip] at h
    rw [if_neg (by simpa using hskip)] at h
    cases hmsg : msg with
    | none => rw [hmsg] at h; simp [stateUpdateMerge] at h
    | some m =>
      rw [hmsg] at h
      simp only [stateUpdateMerge] at h
      cases hres : resolveMsgUid m aboutUid with
      | none => rw [hres] at h; simp at h
      | some u0 =>
        rw [hres] at h
        dsimp only at h
        by_cases hcond : u0 ≠ -1 ∧ (m.lv = none ∨ m.lv = some lvModel)
        case neg => rw [if_neg hcond] at h; simp at h
        rw [if_pos hcond] at h
        simp only [getModel] at h
        by_cases hmem : registry.contains u0 = true
        · rw [if_pos hmem] at h
          simp only [Option.some.injEq, Prod.mk.injEq] at h
          obtain ⟨hu, hcr⟩ := h
          subst hu
          refine ⟨m, rfl, hres, hcond.1, hcond.2, ?_, fun _ => hmem⟩
          rw [← hcr]
          simp
        · rw [if_neg hmem] at h
          by_cases hlv : m.lv = some lvModel
          · rw [if_pos (by simpa using hlv)] at h
            simp only [Option.some.injEq, Prod.mk.injEq] at h
            obtain ⟨hu, hcr⟩ := h
            subst hu
            refine ⟨m, rfl, hres, hcond.1, hcond.2, ?_, ?_⟩
            · rw [← hcr]; simp [hlv]
            · intro hfalse; rw [← hcr] at hfalse; simp [hlv] at hfalse
          · rw [if_neg (by simpa using hlv)] at h; simp at h

/-- C6 witness: a DETAILS packet whose nFrom is the TOKENINC code is skipped. -/
theorem state_update_gating_witness :
    packetStateUpdate 6 2 4 .DETAILS 6 0 (some ⟨some 0, some 9, some 4⟩) none [] =
      none :=
  (state_update_gating 6 2 4 .DETAILS 6 0 (some ⟨some 0, some 9, some 4⟩) none []).1
    (Or.inl ⟨rfl, rfl⟩)

/-- C8 (code bug): the binary encoder writes JS `sMsg.length` — the UTF-16 code-unit
count — as the seventh int32, and `Buffer.write` then refuses to write a partially
encoded character into the too-small payload area. For the one-character payload
U+00E9 ("e-acute"): the frame announces payload length 1, the single payload byte is 0,
while the UTF-8 encoding of the payload is the two bytes [195, 169] — so the seventh
int32 does NOT equal the byte length of the UTF-8 payload that the claim (and the
repository's own binary decoder, which treats it as a byte count) requires. -/
theorem txcmd_payload_length_bug :
    readInt32BE (txCmdBinaryFrame 0 1 0 0 0 (some [Char.ofNat 233])) 24 = some 1 ∧
    (txCmdBinaryFrame 0 1 0 0 0 (some [Char.ofNat 233])).drop 28 = [0] ∧
    utf8OfList [Char.ofNat 233] = [195, 169] ∧
    (utf8OfList [Char.ofNat 233]).length = 2 ∧
    (txCmdBinaryFrame 0 1 0 0 0 (some [Char.ofNat 233])).drop 28 ≠
      utf8OfList [Char.ofNat 233] := by
  refine ⟨by decide, by decide, by decide, by decide, by decide⟩

/-- Characters of a global replacement come from the input or the replacement. -/
theorem replaceAllAux_mem (pat rep : List Char) :
    ∀ (fuel : Nat) (s : List Char) (x : Char),
      x ∈ replaceAllAux fuel s pat rep → x ∈ s ∨ x ∈ rep := by
  intro fuel
  induction fuel with
  | zero => intro s x h; exact Or.inl h
  | succ f ih =>
    intro s x h
    match s with
    | [] => exact absurd h (List.not_mem_nil x)
    | c :: cs =>
      simp only [replaceAllAux] at h
      by_cases hp : pat ≠ [] ∧ pat.isPrefixOf (c :: cs)
      · rw [if_pos hp] at h
        rcases List.mem_append.1 h with h1 | h2
        · exact Or.inr h1
        · rcases ih _ _ h2 with h3 | h4
          · exact Or.inl (List.drop_subset _ _ h3)
          · exact Or.inr h4
      · rw [if_neg hp] at h
        rcases List.mem_cons.1 h with h1 | h2
        · exact Or.inl (h1 ▸ List.mem_cons_self c cs)
        · rcases ih _ _ h2 with h3 | h4
          · exact Or.inl (List.mem_cons_of_mem c h3)
          · exact Or.inr h4

/-- Shape of the head of a two-character global replacement: empty, the replacement
character, or the head of the input. -/
theorem replaceAllAux_head (f : Nat) (a b q : Char) (s : List Char) :
    replaceAllAux f s [a, b] [q] = [] ∨
    (∃ t, replaceAllAux f s [a, b] [q] = q :: t) ∨
    (∃ d t, s.head? = some d ∧ replaceAllAux f s [a, b] [q] = d :: t) := by
  cases f with
  | zero =>
    cases s with
    | nil => exact Or.inl rfl
    | cons c cs => exact Or.inr (Or.inr ⟨c, cs, rfl, rfl⟩)
  | succ f =>
    cases s with
    | nil => exact Or.inl rfl
    | cons c cs =>
      simp only [replaceAllAux]
      by_cases hp : ([a, b] : List Char) ≠ [] ∧ List.isPrefixOf [a, b] (c :: cs)
      · rw [if_pos hp]
        exact Or.inr (Or.inl ⟨_, rfl⟩)
      · rw [if_neg hp]
        exact Or.inr (Or.inr ⟨c, _, rfl, rfl⟩)

/-- A substring check steps through the head. -/
theorem hasSub_cons (c : Char) (cs pat : List Char) :
    hasSub (c :: cs) pat = (pat.isPrefixOf (c :: cs) || hasSub cs pat) := by
  rw [hasSub]
  by_cases hp : pat.isPrefixOf (c :: cs) = true
  · rw [if_pos hp, hp, Bool.true_or]
  · rw [if_neg hp]
    rw [Bool.not_eq_true] at hp
    rw [hp, Bool.false_or]

/-- If a pattern does not occur in `c :: cs`, it does not occur in `cs`. -/
theorem hasSub_tail_of (c : Char) (cs pat : List Char) (h : hasSub (c :: cs) pat = false) :
    hasSub cs pat = false := by
  rw [hasSub_cons, Bool.or_eq_false_iff] at h
  exact h.2

/-- Replacing every occurrence of the two-character pattern `[a, b]` with the single
character `q` (with `q` different from both) leaves no occurrence of `[a, b]`. -/
theorem replaceAll_noSub (a b q : Char) (ha : a ≠ q) (hb : b ≠ q) :
    ∀ (f : Nat) (s : List Char), s.length ≤ f →
      hasSub (replaceAllAux f s [a, b] [q]) [a, b] = false := by
  intro f
  induction f with
  | zero =>
    intro s hlen
    have hs : s = [] := List.length_eq_zero.1 (Nat.le_zero.1 hlen)
    subst hs
    simp [replaceAllAux, hasSub, List.isPrefixOf]
  | succ f ih =>
    intro s hlen
    cases s with
    | nil => simp [replaceAllAux, hasSub, List.isPrefixOf]
    | cons c cs =>
      simp only [replaceAllAux]
      by_cases hp : ([a, b] : List Char) ≠ [] ∧ List.isPrefixOf [a, b] (c :: cs)
      · rw [if_pos hp]
        obtain ⟨-, hpre⟩ := hp
        cases cs with
        | nil => simp [List.isPrefixOf] at hpre
        | cons c2 cs2 =>
          rw [show (c :: c2 :: cs2).drop ([a, b] : List Char).length = cs2 from rfl]
          rw [List.singleton_append, hasSub_cons]
          rw [ih cs2 (by simp at hlen; omega), Bool.or_false]
          simp [List.isPrefixOf, ha]
      · rw [if_neg hp, hasSub_cons]
        rw [ih cs (by simp at hlen; omega), Bool.or_false]
        rcases replaceAllAux_head f a b q cs with h0 | ⟨t, h1⟩ | ⟨d, t, hd, h1⟩
        · rw [h0]; simp [List.isPrefixOf]
        · rw [h1]; simp [List.isPrefixOf, hb]
        · rw [h1]
          by_cases hac : a = c
          · by_cases hbd : b = d
            · exfalso
              apply hp
              cases cs with
              | nil => simp at hd
              | cons e es =>
                have hde : d = e := by simpa using hd.symm
                have hbe : b = e := hbd.trans hde
                exact ⟨by simp, by simp [List.isPrefixOf, hac, hbe]⟩
            · simp [List.isPrefixOf, hbd]
          · simp [List.isPrefixOf, hac]

/-- Replacing every occurrence of the two-character pattern `[a, b]` by `q` cannot
introduce a new occurrence of another two-character pattern `[x, y]` (with `q`
different from `x` and `y`). -/
theorem replaceAll_preserve (a b q x y : Char) (hx : x ≠ q) (hy : y ≠ q) :
    ∀ (f : Nat) (s : List Char), s.length ≤ f → hasSub s [x, y] = false →
      hasSub (replaceAllAux f s [a, b] [q]) [x, y] = false := by
  intro f
  induction f with
  | zero => intro s _ hs; exact hs
  | succ f ih =>
    intro s hlen hs
    cases s with
    | nil => exact hs
    | cons c cs =>
      simp only [replaceAllAux]
      by_cases hp : ([a, b] : List Char) ≠ [] ∧ List.isPrefixOf [a, b] (c :: cs)
      · rw [if_pos hp]
        obtain ⟨-, hpre⟩ := hp
        cases cs with
        | nil => simp [List.isPrefixOf] at hpre
        | cons c2 cs2 =>
          rw [show (c :: c2 :: cs2).drop ([a, b] : List Char).length = cs2 from rfl]
          rw [List.singleton_append, hasSub_cons]
          have hcs2 : hasSub cs2 [x, y] = false :=
            hasSub_tail_of _ _ _ (hasSub_tail_of _ _ _ hs)
          rw [ih cs2 (by simp at hlen; omega) hcs2, Bool.or_false]
          simp [List.isPrefixOf, hx]
      · rw [if_neg hp, hasSub_cons]
        have htail : hasSub cs [x, y] = false := hasSub_tail_of _ _ _ hs
        rw [ih cs (by simp at hlen; omega) htail, Bool.or_false]
        rcases replaceAllAux_head f a b q cs with h0 | ⟨t, h1⟩ | ⟨d, t, hd, h1⟩
        · rw [h0]; simp [List.isPrefixOf]
        · rw [h1]; simp [List.isPrefixOf, hy]
        · rw [h1]
          by_cases hxc : x = c
          · by_cases hyd : y = d
            · exfalso
              cases cs with
              | nil => simp at hd
              | cons e es =>
                have hde : d = e := by simpa using hd.symm
                rw [hasSub_cons] at hs
                have hpre2 : List.isPrefixOf [x, y] (c :: e :: es) = true := by
                  simp [List.isPrefixOf, hxc, hyd.trans hde]
                rw [hpre2, Bool.true_or] at hs
                simp at hs
            · simp [List.isPrefixOf, hyd]
          · simp [List.isPrefixOf, hxc]

/-- Replacing every occurrence of the single character `p` by `q ≠ p` leaves no `p`. -/
theorem replaceAll_single_notMem (p q : Char) (h : p ≠ q) :
    ∀ (f : Nat) (s : List Char), s.length ≤ f → p ∉ replaceAllAux f s [p] [q] := by
  intro f
  induction f with
  | zero =>
    intro s hlen
    have hs : s = [] := List.length_eq_zero.1 (Nat.le_zero.1 hlen)
    subst hs
    simp [replaceAllAux]
  | succ f ih =>
    intro s hlen
    cases s with
    | nil => simp [replaceAllAux]
    | cons c cs =>
      simp only [replaceAllAux]
      by_cases hp : ([p] : List Char) ≠ [] ∧ List.isPrefixOf [p] (c :: cs)
      · rw [if_pos hp]
        rw [show (c :: cs).drop ([p] : List Char).length = cs from rfl]
        rw [List.singleton_append]
        intro hmem
        rcases List.mem_cons.1 hmem with h1 | h2
        · exact h h1
        · exact ih cs (by simp at hlen; omega) h2
      · rw [if_neg hp]
        intro hmem
        rcases List.mem_cons.1 hmem with h1 | h2
        · exact hp ⟨by simp, by simp [List.isPrefixOf, h1]⟩
        · exact ih cs (by simp at hlen; omega) h2

/-- C10: `encodeRawChat` resolves with its input completely unchanged — without
loading or invoking the emote parser — whenever the input is all-whitespace or has no
':'; for every other input the text handed to the emote parser is the input with every
backtick, then every `<~`, then every `~>` replaced by a single quote, and the handed
text therefore contains no backtick, no `<~` and no `~>`. -/
theorem encode_raw_chat_behavior (rawMsg : List Char) :
    ((rawMsg.all jsWhitespace = true ∨ rawMsg.contains ':' = false) →
      encodeRawChat rawMsg = .inl rawMsg) ∧
    (rawMsg.all jsWhitespace = false → rawMsg.contains ':' = true →
      encodeRawChat rawMsg =
        .inr (replaceAll (replaceAll (replaceAll rawMsg [backtickChar] [squoteChar])
          ['<', '~'] [squoteChar]) ['~', '>'] [squoteChar]) ∧
      (∀ out : List Char, encodeRawChat rawMsg = .inr out →
        backtickChar ∉ out ∧ hasSub out ['<', '~'] = false ∧
          hasSub out ['~', '>'] = false)) := by
  constructor
  · intro h
    rw [encodeRawChat, if_pos h]
  · intro h1 h2
    have hcond : ¬(rawMsg.all jsWhitespace = true ∨ rawMsg.contains ':' = false) := by
      rw [h1, h2]
      simp
    constructor
    · rw [encodeRawChat, if_neg hcond]
    · intro out hout
      rw [encodeRawChat, if_neg hcond] at hout
      have hout2 : out = replaceAll (replaceAll (replaceAll rawMsg [backtickChar]
          [squoteChar]) ['<', '~'] [squoteChar]) ['~', '>'] [squoteChar] := by
        injection hout with h3
        exact h3.symm
      subst hout2
      refine ⟨?_, ?_, ?_⟩
      · -- no backtick: eliminated by the first replacement, never reintroduced
        intro hmem
        have hq : backtickChar ≠ squoteChar := by decide
        rcases replaceAllAux_mem _ _ _ _ _ hmem with hmem2 | hrep
        · rcases replaceAllAux_mem _ _ _ _ _ hmem2 with hmem3 | hrep
          · exact replaceAll_single_notMem backtickChar squoteChar hq _ _ le_rfl hmem3
          · simp at hrep; exact hq hrep
        · simp at hrep; exact hq hrep
      · -- no "<~": eliminated by the second replacement, preserved by the third
        exact replaceAll_preserve '~' '>' squoteChar '<' '~' (by decide) (by decide) _ _
          le_rfl (replaceAll_noSub '<' '~' squoteChar (by decide) (by decide) _ _ le_rfl)
      · -- no "~>": eliminated by the third replacement
        exact replaceAll_noSub '~' '>' squoteChar (by decide) (by decide) _ _ le_rfl

/-- C10 witness: a message containing ':' is handed to the parser with the
replacements applied. -/
theorem encode_raw_chat_witness :
    encodeRawChat [':'] =
      .inr (replaceAll (replaceAll (replaceAll [':'] [backtickChar] [squoteChar])
        ['<', '~'] [squoteChar]) ['~', '>'] [squoteChar]) :=
  ((encode_raw_chat_behavior [':']).2 (by decide) (by decide)).1

/-- Reading back the four bytes written for an in-range int32 recovers the value. -/
theorem readInt32BE_write (v : Int) (r : List Nat)
    (h1 : -2147483648 ≤ v) (h2 : v < 2147483648) :
    readInt32BE (writeInt32BE v ++ r) 0 = some v := by
  simp only [writeInt32BE, readInt32BE, List.cons_append, List.nil_append, List.drop_zero]
  simp only [toSigned32]
  split_ifs <;> simp <;> omega

/-- The four bytes of an int32 write. -/
theorem writeInt32BE_length (v : Int) : (writeInt32BE v).length = 4 := rfl

/-- A read past the end of the buffer is a `RangeError`. -/
theorem readInt32BE_eq_none (buf : List Nat) (pos : Nat) (h : buf.length < pos + 4) :
    readInt32BE buf pos = none := by
  have hlen : (buf.drop pos).length < 4 := by
    rw [List.length_drop]; omega
  unfold readInt32BE
  rcases hd : buf.drop pos with _ | ⟨b0, _ | ⟨b1, _ | ⟨b2, _ | ⟨b3, t⟩⟩⟩⟩
  · rfl
  · rfl
  · rfl
  · rfl
  · rw [hd] at hlen
    simp at hlen
    omega

/-- A read that does not run off the end succeeds. -/
theorem readInt32BE_isSome (buf : List Nat) (pos : Nat) (h : pos + 4 ≤ buf.length) :
    ∃ v, readInt32BE buf pos = some v := by
  have hlen : 4 ≤ (buf.drop pos).length := by
    rw [List.length_drop]; omega
  unfold readInt32BE
  rcases hd : buf.drop pos with _ | ⟨b0, _ | ⟨b1, _ | ⟨b2, _ | ⟨b3, t⟩⟩⟩⟩
  · rw [hd] at hlen; simp at hlen
  · rw [hd] at hlen; simp at hlen
  · rw [hd] at hlen; simp at hlen
  · rw [hd] at hlen; simp at hlen
  · exact ⟨_, rfl⟩

/-- A buffer shorter than the 28 header bytes cannot produce a header. -/
theorem readHeader_none_of_short (buf : List Nat) (h : buf.length < 28) :
    readHeader buf = none := by
  unfold readHeader
  have h24 : readInt32BE buf 24 = none := readInt32BE_eq_none buf 24 (by omega)
  cases h0 : readInt32BE buf 0 <;> cases h1 : readInt32BE buf 4 <;>
    cases h2 : readInt32BE buf 8 <;> cases h3 : readInt32BE buf 12 <;>
    cases h4 : readInt32BE buf 16 <;> cases h5 : readInt32BE buf 20 <;>
    simp [h0, h1, h2, h3, h4, h5, h24]

/-- A produced header means at least 28 bytes were buffered. -/
theorem readHeader_some_length (buf : List Nat)
    (t7 : Int × Int × Int × Int × Int × Int × Int) (h : readHeader buf = some t7) :
    28 ≤ buf.length := by
  by_contra hlt
  rw [readHeader_none_of_short buf (by omega)] at h
  exact Option.noConfusion h

/-- Reading past a 4-byte block shifts the offset. -/
theorem readInt32BE_append_four (w4 r : List Nat) (hw : w4.length = 4) (k : Nat) :
    readInt32BE (w4 ++ r) (k + 4) = readInt32BE r k := by
  unfold readInt32BE
  have hdr : (w4 ++ r).drop (k + 4) = r.drop k := by
    rw [Nat.add_comm k 4, ← List.drop_drop, List.drop_left' hw]
  rw [hdr]

/-- The header of a well-formed frame built from seven in-range int32s. -/
theorem readHeader_frame (m t nf nt a1 a2 pl : Int) (tail : List Nat)
    (hm : -2147483648 ≤ m ∧ m < 2147483648) (ht : -2147483648 ≤ t ∧ t < 2147483648)
    (hnf : -2147483648 ≤ nf ∧ nf < 2147483648) (hnt : -2147483648 ≤ nt ∧ nt < 2147483648)
    (ha1 : -2147483648 ≤ a1 ∧ a1 < 2147483648) (ha2 : -2147483648 ≤ a2 ∧ a2 < 2147483648)
    (hpl : -2147483648 ≤ pl ∧ pl < 2147483648) :
    readHeader (writeInt32BE m ++ writeInt32BE t ++ writeInt32BE nf ++ writeInt32BE nt ++
        writeInt32BE a1 ++ writeInt32BE a2 ++ writeInt32BE pl ++ tail) =
      some (m, t, nf, nt, a1, a2, pl) := by
  have L : ∀ v : Int, (writeInt32BE v).length = 4 := fun v => rfl
  have e0 : readInt32BE (writeInt32BE m ++ writeInt32BE t ++ writeInt32BE nf ++
      writeInt32BE nt ++ writeInt32BE a1 ++ writeInt32BE a2 ++ writeInt32BE pl ++ tail)
      0 = some m := by
    simp only [List.append_assoc]
    exact readInt32BE_write m _ hm.1 hm.2
  have e1 : readInt32BE (writeInt32BE m ++ writeInt32BE t ++ writeInt32BE nf ++
      writeInt32BE nt ++ writeInt32BE a1 ++ writeInt32BE a2 ++ writeInt32BE pl ++ tail)
      4 = some t := by
    simp only [List.append_assoc]
    rw [readInt32BE_append_four _ _ (L m) 0]
    exact readInt32BE_write t _ ht.1 ht.2
  have e2 : readInt32BE (writeInt32BE m ++ writeInt32BE t ++ writeInt32BE nf ++
      writeInt32BE nt ++ writeInt32BE a1 ++ writeInt32BE a2 ++ writeInt32BE pl ++ tail)
      8 = some nf := by
    simp only [List.append_assoc]
    rw [readInt32BE_append_four _ _ (L m) 4, readInt32BE_append_four _ _ (L t) 0]
    exact readInt32BE_write nf _ hnf.1 hnf.2
  have e3 : readInt32BE (writeInt32BE m ++ writeInt32BE t ++ writeInt32BE nf ++
      writeInt32BE nt ++ writeInt32BE a1 ++ writeInt32BE a2 ++ writeInt32BE pl ++ tail)
      12 = some nt := by
    simp only [List.append_assoc]
    rw [readInt32BE_append_four _ _ (L m) 8, readInt32BE_append_four _ _ (L t) 4,
      readInt32BE_append_four _ _ (L nf) 0]
    exact readInt32BE_write nt _ hnt.1 hnt.2
  have e4 : readInt32BE (writeInt32BE m ++ writeInt32BE t ++ writeInt32BE nf ++
      writeInt32BE nt ++ writeInt32BE a1 ++ writeInt32BE a2 ++ writeInt32BE pl ++ tail)
      16 = some a1 := by
    simp only [List.append_assoc]
    rw [readInt32BE_append_four _ _ (L m) 12, readInt32BE_append_four _ _ (L t) 8,
      readInt32BE_append_four _ _ (L nf) 4, readInt32BE_append_four _ _ (L nt) 0]
    exact readInt32BE_write a1 _ ha1.1 ha1.2
  have e5 : readInt32BE (writeInt32BE m ++ writeInt32BE t ++ writeInt32BE nf ++
      writeInt32BE nt ++ writeInt32BE a1 ++ writeInt32BE a2 ++ writeInt32BE pl ++ tail)
      20 = some a2 := by
    simp only [List.append_assoc]
    rw [readInt32BE_append_four _ _ (L m) 16, readInt32BE_append_four _ _ (L t) 12,
      readInt32BE_append_four _ _ (L nf) 8, readInt32BE_append_four _ _ (L nt) 4,
      readInt32BE_append_four _ _ (L a1) 0]
    exact readInt32BE_write a2 _ ha2.1 ha2.2
  have e6 : readInt32BE (writeInt32BE m ++ writeInt32BE t ++ writeInt32BE nf ++
      writeInt32BE nt ++ writeInt32BE a1 ++ writeInt32BE a2 ++ writeInt32BE pl ++ tail)
      24 = some pl := by
    simp only [List.append_assoc]
    rw [readInt32BE_append_four _ _ (L m) 20, readInt32BE_append_four _ _ (L t) 16,
      readInt32BE_append_four _ _ (L nf) 12, readInt32BE_append_four _ _ (L nt) 8,
      readInt32BE_append_four _ _ (L a1) 4, readInt32BE_append_four _ _ (L a2) 0]
    exact readInt32BE_write pl _ hpl.1 hpl.2
  unfold readHeader
  simp only [e0, e1, e2, e3, e4, e5, e6, Option.bind_eq_bind, Option.some_bind]

/-- The binary decoder does not depend on the fuel, provided it covers the buffer
length (each frame consumes at least 28 bytes). -/
theorem readBinAux_congr : ∀ (f g : Nat) (buf : List Nat), buf.length ≤ f →
    buf.length ≤ g → readBinAux f buf = readBinAux g buf := by
  intro f
  induction f with
  | zero =>
    intro g buf hf _
    have hb : buf = [] := List.length_eq_zero.1 (Nat.le_zero.1 hf)
    subst hb
    cases g with
    | zero => rfl
    | succ g =>
      show (⟨[], .ok []⟩ : BinResult) = readBinAux (g + 1) []
      simp only [readBinAux, show readHeader [] = none from rfl]
  | succ f ih =>
    intro g buf hf hg
    cases g with
    | zero =>
      have hb : buf = [] := List.length_eq_zero.1 (Nat.le_zero.1 hg)
      subst hb
      simp only [readBinAux, show readHeader [] = none from rfl]
    | succ g =>
      simp only [readBinAux]
      cases hh : readHeader buf with
      | none => rfl
      | some t7 =>
        obtain ⟨m, t, nf, nt, a1, a2, pl⟩ := t7
        dsimp only
        by_cases hm : m ≠ MAGIC
        · rw [if_pos hm, if_pos hm]
        · rw [if_neg hm, if_neg hm]
          by_cases hpl : 0 < pl ∧ (28 + pl : Int) > (buf.length : Int)
          · rw [if_pos hpl, if_pos hpl]
          · rw [if_neg hpl, if_neg hpl]
            have hrec := ih g (buf.drop (28 + pl.toNat))
              (by rw [List.length_drop]; omega) (by rw [List.length_drop]; omega)
            simp only [hrec]

/-- One-step unfolding of the fully fueled binary decoder. -/
theorem readPacket_eq (buf : List Nat) :
    readPacket buf =
      (match readHeader buf with
      | none => ⟨[], .ok buf⟩
      | some (magic, fcType, nFrom, nTo, nArg1, nArg2, sPayload) =>
        if magic ≠ MAGIC then ⟨[], .error ()⟩
        else if 0 < sPayload ∧ (28 + sPayload : Int) > (buf.length : Int) then
          ⟨[], .ok buf⟩
        else
          let pn := sPayload.toNat
          let strParam : Option (List Char) :=
            if 0 < sPayload then some (utf8DecodeLossy ((buf.drop 28).take pn)) else none
          let sMessage : Option SMessage :=
            match strParam with
            | some s => if s ≠ [] then some (jsonOrRawBin s) else none
            | none => none
          ⟨(⟨fcType, nFrom, nTo, nArg1, nArg2, sPayload, sMessage⟩ : BinPacket) ::
              (readPacket (buf.drop (28 + pn))).packets,
            (readPacket (buf.drop (28 + pn))).rest⟩ : BinResult) := by
  cases hl : buf.length with
  | zero =>
    have hb : buf = [] := List.length_eq_zero.1 hl
    subst hb
    rw [show readHeader [] = none from rfl]
    rfl
  | succ n =>
    rw [readPacket, hl]
    simp only [readBinAux]
    cases hh : readHeader buf with
    | none => rfl
    | some t7 =>
      obtain ⟨m, t, nf, nt, a1, a2, pl⟩ := t7
      dsimp only
      by_cases hm : m ≠ MAGIC
      · rw [if_pos hm, if_pos hm]
      · rw [if_neg hm, if_neg hm]
        have h28 : 28 ≤ buf.length := readHeader_some_length buf _ hh
        by_cases hpl : 0 < pl ∧ (28 + pl : Int) > (buf.length : Int)
        · rw [if_pos hpl]
          rw [hl] at hpl
          rw [if_pos hpl]
        · rw [if_neg hpl]
          rw [hl] at hpl
          rw [if_neg hpl]
          have hrec : readBinAux n (buf.drop (28 + pl.toNat)) =
              readPacket (buf.drop (28 + pl.toNat)) := by
            rw [readPacket]
            exact readBinAux_congr n _ _ (by rw [List.length_drop]; omega) le_rfl
          simp only [hrec]

/-- C1: binary-dialect decoding. (i) A buffer beginning with a complete frame — seven
big-endian int32s whose first is MAGIC = -2027771214, followed by `payloadLength`
payload bytes — delivers exactly one packet whose fields are the next six int32s and
whose payload is the UTF-8 decoding of the payload bytes (JSON-parsed with raw-string
fallback), then repeats on the remaining bytes; (ii) fewer than 28 buffered bytes
deliver nothing and consume nothing; (iii) a frame header announcing more payload than
is buffered delivers nothing and consumes nothing; (iv) a first int32 different from
MAGIC raises the fatal framing error and delivers nothing. -/
theorem binary_dialect_decoding :
    (∀ (t nf nt a1 a2 : Int) (payload rest : List Nat),
      -2147483648 ≤ t ∧ t < 2147483648 → -2147483648 ≤ nf ∧ nf < 2147483648 →
      -2147483648 ≤ nt ∧ nt < 2147483648 → -2147483648 ≤ a1 ∧ a1 < 2147483648 →
      -2147483648 ≤ a2 ∧ a2 < 2147483648 → (payload.length : Int) < 2147483648 →
      readPacket (writeInt32BE MAGIC ++ writeInt32BE t ++ writeInt32BE nf ++
          writeInt32BE nt ++ writeInt32BE a1 ++ writeInt32BE a2 ++
          writeInt32BE (payload.length : Int) ++ (payload ++ rest)) =
        ⟨(⟨t, nf, nt, a1, a2, (payload.length : Int),
            if 0 < (payload.length : Int) then
              (if utf8DecodeLossy payload ≠ [] then
                some (jsonOrRawBin (utf8DecodeLossy payload)) else none)
            else none⟩ : BinPacket) :: (readPacket rest).packets,
          (readPacket rest).rest⟩) ∧
    (∀ buf : List Nat, buf.length < 28 → readPacket buf = ⟨[], .ok buf⟩) ∧
    (∀ (t nf nt a1 a2 pl : Int) (part : List Nat),
      -2147483648 ≤ t ∧ t < 2147483648 → -2147483648 ≤ nf ∧ nf < 2147483648 →
      -2147483648 ≤ nt ∧ nt < 2147483648 → -2147483648 ≤ a1 ∧ a1 < 2147483648 →
      -2147483648 ≤ a2 ∧ a2 < 2147483648 → 0 < pl → pl < 2147483648 →
      (part.length : Int) < pl →
      readPacket (writeInt32BE MAGIC ++ writeInt32BE t ++ writeInt32BE nf ++
          writeInt32BE nt ++ writeInt32BE a1 ++ writeInt32BE a2 ++
          writeInt32BE pl ++ part) =
        ⟨[], .ok (writeInt32BE MAGIC ++ writeInt32BE t ++ writeInt32BE nf ++
          writeInt32BE nt ++ writeInt32BE a1 ++ writeInt32BE a2 ++
          writeInt32BE pl ++ part)⟩) ∧
    (∀ (m : Int) (rest : List Nat),
      -2147483648 ≤ m ∧ m < 2147483648 → m ≠ MAGIC → 24 ≤ rest.length →
      readPacket (writeInt32BE m ++ rest) = ⟨[], .error ()⟩) := by
  have hM : -2147483648 ≤ MAGIC ∧ MAGIC < 2147483648 := by norm_num [MAGIC]
  refine ⟨?_, ?_, ?_, ?_⟩
  · intro t nf nt a1 a2 payload rest ht hnf hnt ha1 ha2 hp
    have hplr : -2147483648 ≤ (payload.length : Int) ∧
        (payload.length : Int) < 2147483648 := ⟨by omega, hp⟩
    have hhead := readHeader_frame MAGIC t nf nt a1 a2 (payload.length : Int)
      (payload ++ rest) hM ht hnf hnt ha1 ha2 hplr
    have hH : (writeInt32BE MAGIC ++ writeInt32BE t ++ writeInt32BE nf ++
        writeInt32BE nt ++ writeInt32BE a1 ++ writeInt32BE a2 ++
        writeInt32BE (payload.length : Int)).length = 28 := by
      simp [List.length_append, writeInt32BE_length]
    have hlen : (writeInt32BE MAGIC ++ writeInt32BE t ++ writeInt32BE nf ++
        writeInt32BE nt ++ writeInt32BE a1 ++ writeInt32BE a2 ++
        writeInt32BE (payload.length : Int) ++ (payload ++ rest)).length =
        28 + (payload.length + rest.length) := by
      rw [List.length_append, hH, List.length_append]
    rw [readPacket_eq, hhead]
    dsimp only
    rw [if_neg (show ¬(MAGIC ≠ MAGIC) by simp)]
    rw [if_neg (by rw [hlen]; push_cast; omega)]
    have hd28 : (writeInt32BE MAGIC ++ writeInt32BE t ++ writeInt32BE nf ++
        writeInt32BE nt ++ writeInt32BE a1 ++ writeInt32BE a2 ++
        writeInt32BE (payload.length : Int) ++ (payload ++ rest)).drop 28 =
        payload ++ rest := List.drop_left' hH
    simp only [Int.toNat_ofNat, hd28, List.take_left]
    rw [← List.drop_drop, hd28, List.drop_left]
    by_cases hp0 : 0 < (payload.length : Int)
    · simp only [if_pos hp0]
    · simp only [if_neg hp0]
  · intro buf h
    rw [readPacket_eq, readHeader_none_of_short buf h]
  · intro t nf nt a1 a2 pl part ht hnf hnt ha1 ha2 hpl0 hpl1 hpart
    have hplr : -2147483648 ≤ pl ∧ pl < 2147483648 := ⟨by omega, hpl1⟩
    have hhead := readHeader_frame MAGIC t nf nt a1 a2 pl part hM ht hnf hnt ha1 ha2 hplr
    have hH : (writeInt32BE MAGIC ++ writeInt32BE t ++ writeInt32BE nf ++
        writeInt32BE nt ++ writeInt32BE a1 ++ writeInt32BE a2 ++
        writeInt32BE pl).length = 28 := by
      simp [List.length_append, writeInt32BE_length]
    have hlen : (writeInt32BE MAGIC ++ writeInt32BE t ++ writeInt32BE nf ++
        writeInt32BE nt ++ writeInt32BE a1 ++ writeInt32BE a2 ++
        writeInt32BE pl ++ part).length = 28 + part.length := by
      rw [List.length_append, hH]
    rw [readPacket_eq, hhead]
    dsimp only
    rw [if_neg (show ¬(MAGIC ≠ MAGIC) by simp)]
    rw [if_pos (by rw [hlen]; push_cast; omega)]
  · intro m rest hm hne hrest
    have hlen : (writeInt32BE m ++ rest).length = 4 + rest.length := by
      rw [List.length_append, writeInt32BE_length]
    obtain ⟨i1, hi1⟩ := readInt32BE_isSome (writeInt32BE m ++ rest) 4 (by omega)
    obtain ⟨i2, hi2⟩ := readInt32BE_isSome (writeInt32BE m ++ rest) 8 (by omega)
    obtain ⟨i3, hi3⟩ := readInt32BE_isSome (writeInt32BE m ++ rest) 12 (by omega)
    obtain ⟨i4, hi4⟩ := readInt32BE_isSome (writeInt32BE m ++ rest) 16 (by omega)
    obtain ⟨i5, hi5⟩ := readInt32BE_isSome (writeInt32BE m ++ rest) 20 (by omega)
    obtain ⟨i6, hi6⟩ := readInt32BE_isSome (writeInt32BE m ++ rest) 24 (by omega)
    have hhead : readHeader (writeInt32BE m ++ rest) = some (m, i1, i2, i3, i4, i5, i6) := by
      unfold readHeader
      simp only [readInt32BE_write m rest hm.1 hm.2, hi1, hi2, hi3, hi4, hi5, hi6,
        Option.bind_eq_bind, Option.some_bind]
    rw [readPacket_eq, hhead]
    dsimp only
    rw [if_pos hne]

/-- The noise shifter is the identity on buffers already matching the filter. -/
theorem shiftNoiseAux_of_filter (f : Nat) (s : List Char)
    (h : webSocketNoiseFilter s = true) : shiftNoiseAux f s = s := by
  cases f with
  | zero => rfl
  | succ f =>
    simp only [shiftNoiseAux]
    by_cases hl : s.length ≤ 4
    · rw [if_pos hl]
    · rw [if_neg hl, if_pos h]

/-- The noise shifter never lengthens the buffer. -/
theorem shiftNoiseAux_length : ∀ (f : Nat) (s : List Char),
    (shiftNoiseAux f s).length ≤ s.length := by
  intro f
  induction f with
  | zero => intro s; exact le_rfl
  | succ f ih =>
    intro s
    simp only [shiftNoiseAux]
    split_ifs with h1 h2
    · exact le_rfl
    · exact le_rfl
    · exact le_trans (ih _) (by rw [List.length_drop]; omega)

/-- Shifting one noise character off a large-enough buffer. -/
theorem shiftNoise_cons_noise (c : Char) (buf : List Char)
    (hf : webSocketNoiseFilter (c :: buf) = false) (hl : 4 ≤ buf.length) :
    shiftNoise (c :: buf) = shiftNoise buf := by
  show shiftNoiseAux (c :: buf).length (c :: buf) = shiftNoise buf
  have hc : (c :: buf).length = buf.length + 1 := rfl
  rw [hc]
  simp only [shiftNoiseAux]
  rw [if_neg (by simp; omega), if_neg (by rw [hf]; simp)]
  rfl

/-- The text decoder does not depend on the fuel, provided it covers the buffer
length (each iteration consumes at least one character). -/
theorem readWsAux_congr : ∀ (f g : Nat) (buf : List Char), buf.length ≤ f →
    buf.length ≤ g → readWsAux f buf = readWsAux g buf := by
  intro f
  induction f with
  | zero =>
    intro g buf hf _
    have hb : buf = [] := List.length_eq_zero.1 (Nat.le_zero.1 hf)
    subst hb
    cases g with
    | zero => rfl
    | succ g => simp [readWsAux]
  | succ f ih =>
    intro g buf hf hg
    cases g with
    | zero =>
      have hb : buf = [] := List.length_eq_zero.1 (Nat.le_zero.1 hg)
      subst hb
      simp [readWsAux]
    | succ g =>
      simp only [readWsAux]
      by_cases h1 : buf.length ≤ 4
      · rw [if_pos h1, if_pos h1]
      · rw [if_neg h1, if_neg h1]
        by_cases h2 : (shiftNoise buf).length ≤ 4
        · rw [if_pos h2, if_pos h2]
        · rw [if_neg h2, if_neg h2]
          have hb1 : (shiftNoise buf).length ≤ buf.length := shiftNoiseAux_length _ _
          cases hp : parseIntJS ((shiftNoise buf).take 4) with
          | none => rfl
          | some L =>
            dsimp only
            by_cases h3 : ((shiftNoise buf).length : Int) < L
            · rw [if_pos h3, if_pos h3]
            · rw [if_neg h3, if_neg h3]
              have hrec := ih g (((shiftNoise buf).drop 4).drop L.toNat)
                (by rw [List.length_drop, List.length_drop]; omega)
                (by rw [List.length_drop, List.length_drop]; omega)
              simp only [hrec]

/-- One-step unfolding of the fully fueled text decoder. -/
theorem readWebSocketPacket_eq (buf : List Char) :
    readWebSocketPacket buf =
      (if buf.length ≤ 4 then ⟨[], .ok buf⟩
      else if (shiftNoise buf).length ≤ 4 then ⟨[], .ok (shiftNoise buf)⟩
      else
        match parseIntJS ((shiftNoise buf).take 4) with
        | none => ⟨[], .error ()⟩
        | some messageLength =>
          if ((shiftNoise buf).length : Int) < messageLength then
            ⟨[], .ok (shiftNoise buf)⟩
          else
            ⟨mkWsPacket (((shiftNoise buf).drop 4).take messageLength.toNat) ::
                (readWebSocketPacket
                  (((shiftNoise buf).drop 4).drop messageLength.toNat)).packets,
              (readWebSocketPacket
                (((shiftNoise buf).drop 4).drop messageLength.toNat)).rest⟩ : WsResult) := by
  cases buf with
  | nil => simp [readWebSocketPacket, readWsAux]
  | cons c cs =>
    rw [readWebSocketPacket]
    have hc : (c :: cs).length = cs.length + 1 := rfl
    rw [hc]
    simp only [readWsAux]
    rw [← hc]
    by_cases h1 : (c :: cs).length ≤ 4
    · rw [if_pos h1, if_pos h1]
    · rw [if_neg h1, if_neg h1]
      by_cases h2 : (shiftNoise (c :: cs)).length ≤ 4
      · rw [if_pos h2, if_pos h2]
      · rw [if_neg h2, if_neg h2]
        have hb1 : (shiftNoise (c :: cs)).length ≤ (c :: cs).length :=
          shiftNoiseAux_length _ _
        cases hp : parseIntJS ((shiftNoise (c :: cs)).take 4) with
        | none => rfl
        | some L =>
          dsimp only
          by_cases h3 : ((shiftNoise (c :: cs)).length : Int) < L
          · rw [if_pos h3, if_pos h3]
          · rw [if_neg h3, if_neg h3]
            have hrec : readWsAux cs.length
                (((shiftNoise (c :: cs)).drop 4).drop L.toNat) =
                readWebSocketPacket (((shiftNoise (c :: cs)).drop 4).drop L.toNat) := by
              rw [readWebSocketPacket]
              exact readWsAux_congr cs.length _ _
                (by
                  have hlen2 : (c :: cs).length = cs.length + 1 := rfl
                  rw [List.length_drop, List.length_drop]
                  omega)
                le_rfl
            simp only [hrec]

/-- `split` never returns an empty piece list. -/
theorem splitChar_ne_nil (s : List Char) (sep : Char) : splitChar s sep ≠ [] := by
  cases s with
  | nil => simp [splitChar]
  | cons c cs =>
    simp only [splitChar]
    by_cases h : c = sep
    · rw [if_pos h]; simp
    · rw [if_neg h]
      cases hs : splitChar cs sep <;> simp

/-- Splitting a separator-free piece followed by a separator. -/
theorem splitChar_append (a : List Char) (sep : Char) (r : List Char) (h : sep ∉ a) :
    splitChar (a ++ sep :: r) sep = a :: splitChar r sep := by
  induction a with
  | nil => simp [splitChar]
  | cons c a2 ih =>
    have hc : c ≠ sep := fun hh => h (hh ▸ List.mem_cons_self c a2)
    have h2 : sep ∉ a2 := fun hh => h (List.mem_cons_of_mem _ hh)
    simp only [List.cons_append, splitChar]
    rw [if_neg hc, show List.append a2 (sep :: r) = a2 ++ sep :: r from rfl, ih h2]

/-- Splitting a separator-free string. -/
theorem splitChar_no_sep (a : List Char) (sep : Char) (h : sep ∉ a) :
    splitChar a sep = [a] := by
  induction a with
  | nil => rfl
  | cons c a2 ih =>
    have hc : c ≠ sep := fun hh => h (hh ▸ List.mem_cons_self c a2)
    have h2 : sep ∉ a2 := fun hh => h (List.mem_cons_of_mem _ hh)
    simp only [splitChar]
    rw [if_neg hc, ih h2]

/-- The noise shifter is the identity on buffers of at most 4 characters. -/
theorem shiftNoiseAux_small (f : Nat) (s : List Char) (h : s.length ≤ 4) :
    shiftNoiseAux f s = s := by
  cases f with
  | zero => rfl
  | succ f =>
    simp only [shiftNoiseAux]
    rw [if_pos h]

/-- C2 (amended): text-dialect decoding. (i) With at most 4 buffered characters
nothing is consumed; (ii) while the buffer does not match the noise-filter regex,
leading characters are discarded one at a time; (iii) after reading the first 4 digits
as the length tag L, nothing is consumed until the buffered text (still counting the
4-digit prefix) reaches L characters; (iv) a frame then consumes the 4-digit prefix
plus an L-character body — 4 + L characters in total, which exceeds the tag by the
4-character prefix (and can truncate the body when fewer than 4 + L characters are
buffered) — emits one packet, and decoding repeats on the remainder; (v) the body is
parsed as five space-separated integers followed by an optional payload that is
URL-decoded and JSON-parsed, falling back to the raw string. -/
theorem websocket_text_decoding_amended :
    (∀ buf : List Char, buf.length ≤ 4 → readWebSocketPacket buf = ⟨[], .ok buf⟩) ∧
    (∀ (c : Char) (buf : List Char), webSocketNoiseFilter (c :: buf) = false →
      4 ≤ buf.length → readWebSocketPacket (c :: buf) = readWebSocketPacket buf) ∧
    (∀ (buf : List Char) (L : Int), 4 < buf.length → webSocketNoiseFilter buf = true →
      parseIntJS (buf.take 4) = some L → (buf.length : Int) < L →
      readWebSocketPacket buf = ⟨[], .ok buf⟩) ∧
    (∀ (d body rest : List Char) (L : Int), d.length = 4 →
      webSocketNoiseFilter (d ++ body ++ rest) = true → parseIntJS d = some L →
      (body.length : Int) = L → 4 < (d ++ body ++ rest).length →
      readWebSocketPacket (d ++ body ++ rest) =
        ⟨mkWsPacket body :: (readWebSocketPacket rest).packets,
          (readWebSocketPacket rest).rest⟩) ∧
    (∀ p1 p2 p3 p4 p5 payload : List Char,
      ' ' ∉ p1 → ' ' ∉ p2 → ' ' ∉ p3 → ' ' ∉ p4 → ' ' ∉ p5 →
      mkWsPacket (p1 ++ ' ' :: p2 ++ ' ' :: p3 ++ ' ' :: p4 ++ ' ' :: p5 ++ ' ' :: payload) =
        ⟨parseIntJS p1, parseIntJS p2, parseIntJS p3, parseIntJS p4, parseIntJS p5,
          payload.length,
          if payload.length = 0 then none else some (jsonOrRawWs payload)⟩ ∧
      mkWsPacket (p1 ++ ' ' :: p2 ++ ' ' :: p3 ++ ' ' :: p4 ++ ' ' :: p5) =
        ⟨parseIntJS p1, parseIntJS p2, parseIntJS p3, parseIntJS p4, parseIntJS p5,
          0, none⟩) := by
  refine ⟨?_, ?_, ?_, ?_, ?_⟩
  · intro buf h
    rw [readWebSocketPacket_eq, if_pos h]
  · intro c buf hf hl
    rw [readWebSocketPacket_eq (c :: buf), readWebSocketPacket_eq buf]
    have hc : (c :: buf).length = buf.length + 1 := rfl
    by_cases h4 : buf.length ≤ 4
    · have hb4 : buf.length = 4 := le_antisymm h4 hl
      have hsn : shiftNoise buf = buf := shiftNoiseAux_small _ _ h4
      rw [if_neg (by rw [hc]; omega), if_pos h4, shiftNoise_cons_noise c buf hf hl, hsn,
        if_pos h4]
    · rw [if_neg (by rw [hc]; omega), if_neg h4, shiftNoise_cons_noise c buf hf hl]
  · intro buf L h4 hf hp hlt
    rw [readWebSocketPacket_eq]
    have hsn : shiftNoise buf = buf := shiftNoiseAux_of_filter _ _ hf
    rw [hsn, if_neg (by omega), if_neg (by omega), hp]
    dsimp only
    rw [if_pos hlt]
  · intro d body rest L hd hf hp hL hlen
    subst hL
    rw [readWebSocketPacket_eq]
    have hsn : shiftNoise (d ++ body ++ rest) = d ++ body ++ rest :=
      shiftNoiseAux_of_filter _ _ hf
    have htake4 : (d ++ body ++ rest).take 4 = d := by
      rw [List.append_assoc]
      exact List.take_left' hd
    have hdrop4 : (d ++ body ++ rest).drop 4 = body ++ rest := by
      rw [List.append_assoc]
      exact List.drop_left' hd
    have hlen2 : (d ++ body ++ rest).length = 4 + (body.length + rest.length) := by
      simp [List.length_append, hd]
    rw [hsn, if_neg (by omega), if_neg (by omega), htake4, hp]
    dsimp only
    rw [if_neg (by rw [hlen2]; push_cast; omega)]
    rw [hdrop4]
    simp only [Int.toNat_ofNat, List.take_left, List.drop_left]
  · intro p1 p2 p3 p4 p5 payload h1 h2 h3 h4 h5
    constructor
    · simp only [mkWsPacket]
      have hsplit : splitChar
          (p1 ++ ' ' :: p2 ++ ' ' :: p3 ++ ' ' :: p4 ++ ' ' :: p5 ++ ' ' :: payload) ' ' =
          p1 :: p2 :: p3 :: p4 :: p5 :: splitChar payload ' ' := by
        simp only [List.append_assoc, List.cons_append]
        rw [splitChar_append _ _ _ h1, splitChar_append _ _ _ h2,
          splitChar_append _ _ _ h3, splitChar_append _ _ _ h4,
          splitChar_append _ _ _ h5]
      rw [hsplit]
      have htake : (p1 :: p2 :: p3 :: p4 :: p5 :: splitChar payload ' ').take 5 =
          [p1, p2, p3, p4, p5] := rfl
      rw [htake]
      have hbody : p1 ++ ' ' :: p2 ++ ' ' :: p3 ++ ' ' :: p4 ++ ' ' :: p5 ++ ' ' :: payload =
          (p1 ++ ' ' :: p2 ++ ' ' :: p3 ++ ' ' :: p4 ++ ' ' :: p5 ++ [' ']) ++ payload := by
        simp [List.append_assoc]
      have hplen : (p1 ++ ' ' :: p2 ++ ' ' :: p3 ++ ' ' :: p4 ++ ' ' :: p5 ++ [' ']).length =
          ([p1, p2, p3, p4, p5].map List.length).sum + 5 := by
        simp [List.length_append]
        omega
      have hdrop : (p1 ++ ' ' :: p2 ++ ' ' :: p3 ++ ' ' :: p4 ++ ' ' :: p5 ++ ' ' ::
          payload).drop (([p1, p2, p3, p4, p5].map List.length).sum + 5) = payload := by
        rw [hbody, List.drop_left' hplen]
      rw [hdrop]
      rfl
    · simp only [mkWsPacket]
      have hsplit2 : splitChar (p1 ++ ' ' :: p2 ++ ' ' :: p3 ++ ' ' :: p4 ++ ' ' :: p5) ' ' =
          p1 :: p2 :: p3 :: p4 :: [p5] := by
        simp only [List.append_assoc, List.cons_append]
        rw [splitChar_append _ _ _ h1, splitChar_append _ _ _ h2,
          splitChar_append _ _ _ h3, splitChar_append _ _ _ h4, splitChar_no_sep _ _ h5]
      rw [hsplit2]
      have htake2 : (p1 :: p2 :: p3 :: p4 :: [p5]).take 5 = [p1, p2, p3, p4, p5] := rfl
      rw [htake2]
      have hdrop2 : (p1 ++ ' ' :: p2 ++ ' ' :: p3 ++ ' ' :: p4 ++ ' ' :: p5).drop
          (([p1, p2, p3, p4, p5].map List.length).sum + 5) = [] := by
        apply List.drop_eq_nil_of_le
        simp [List.length_append]
        omega
      rw [hdrop2]
      rfl

/-- Counterexample to claim C2: on the 14-character buffer `"00101 2 3 4 5\n"`
(length tag `0010`, i.e. 10) the decoder emits a packet and consumes all 14
characters — 4-digit prefix plus a 10-character body — so the total frame consumed
is `4 + tag`, not `tag` as the claim states; and on the 13-character prefix of that
buffer (one character short of the full frame) the decoder still emits a packet,
with a truncated body, instead of waiting for more data. -/
theorem ws_frame_consumption_counterexample :
    (readWebSocketPacket
        ['0','0','1','0','1',' ','2',' ','3',' ','4',' ','5',Char.ofNat 10] =
      ⟨[⟨some 1, some 2, some 3, some 4, some 5, 0, none⟩], .ok []⟩ ∧
      parseIntJS ['0','0','1','0'] = some 10 ∧
      (['0','0','1','0','1',' ','2',' ','3',' ','4',' ','5',Char.ofNat 10] :
        List Char).length = 14) ∧
    (readWebSocketPacket ['0','0','1','0','1',' ','2',' ','3',' ','4',' ','5'] =
      ⟨[⟨some 1, some 2, some 3, some 4, some 5, 0, none⟩], .ok []⟩ ∧
      (['0','0','1','0','1',' ','2',' ','3',' ','4',' ','5'] :
        List Char).length = 13) :=
  ⟨⟨rfl, rfl, rfl⟩, rfl, rfl⟩

/-- Witness for the amended text-dialect decoding theorem: the buffer
`"00099 8 7 6 5"` (tag 9, body `"9 8 7 6 5"`) yields exactly one packet and an
empty retained buffer. -/
theorem websocket_text_decoding_witness :
    readWebSocketPacket (['0','0','0','9'] ++ ['9',' ','8',' ','7',' ','6',' ','5'] ++ []) =
      ⟨[mkWsPacket ['9',' ','8',' ','7',' ','6',' ','5']], .ok []⟩ :=
  (websocket_text_decoding_amended.2.2.2.1 ['0','0','0','9']
      ['9',' ','8',' ','7',' ','6',' ','5'] [] 9 (by decide) (by decide) (by decide)
      (by decide) (by decide)).trans rfl

/-- Witness for the binary-dialect decoding theorem: a single complete frame with
header fields 1,2,3,4,5, the two-byte payload `"hi"`, and nothing following it
decodes to exactly one packet carrying the raw string `"hi"`. -/
theorem binary_dialect_decoding_witness :
    readPacket (writeInt32BE MAGIC ++ writeInt32BE 1 ++ writeInt32BE 2 ++
        writeInt32BE 3 ++ writeInt32BE 4 ++ writeInt32BE 5 ++
        writeInt32BE (([104, 105] : List Nat).length : Int) ++ ([104, 105] ++ [])) =
      ⟨[⟨1, 2, 3, 4, 5, 2, some (.raw ['h', 'i'])⟩], .ok []⟩ :=
  (binary_dialect_decoding.1 1 2 3 4 5 [104, 105] [] (by decide) (by decide)
      (by decide) (by decide) (by decide) (by decide)).trans rfl
